import Mathlib

/-!
Overload resolution and argument marshalling of `pybind11/internal/cpp_function.h`.

A shallow embedding of `function_record`, `template_parser` (here
`template_parser_t`) and `bind_function`
together with theorems about overload dispatch, argument binding and chain
registration.

Conventions of the embedding.
* A `handle` is `Option Value`; the null handle `handle()` is `none`.
* The owning link `next` of a record is list adjacency: a `function_record*`
  is a `List function_record`, `nullptr` is `[]`, and the record `this` is
  given as its own fields together with the chain hanging from its `next`.
* A function pointer `wrapper_t` is the `template_parser_t` instantiation whose
  static member `wrapper` it points to.
* Undefined behaviour of the C++ code (null dereference, out-of-bounds stack
  write, reading the inactive storage member) is an explicit `Fault`.
* Native invocations and wrapper calls are recorded as a list of `Event`s.
-/

set_option autoImplicit false

namespace pybind11

/-- Interned name `pkpy::StrName`, identified by its index. -/
abbrev StrName := Nat

/-- The ownership policies of `return_value_policy`. -/
inductive return_value_policy where
  | automatic
  | automatic_reference
  | take_ownership
  | copy
  | move
  | reference
  | reference_internal
  deriving DecidableEq, Repr

/-- Dynamic values of the embedded runtime, as far as the marshalling code
builds or inspects them: `tuple` is what `tuple(n)` plus element stores
builds, `dict` is what `dict` plus item stores builds (insertion ordered). -/
inductive Value where
  | none
  | int (i : Int)
  | float (mantissa exponent : Int)
  | str (s : String)
  | tuple (items : List Value)
  | dict (items : List (StrName × Value))

/-- A `handle`: a possibly null reference to a dynamic value. -/
abbrev handle := Option Value

/-- Item store `d[name] = value` on an insertion-ordered dictionary: an
existing key keeps its position and takes the new value, a new key is added
at the end. -/
def dict_setitem : List (StrName × Value) → StrName → Value → List (StrName × Value)
  | [], k, v => [(k, v)]
  | (k0, v0) :: rest, k, v =>
    if k0 = k then (k0, v) :: rest else (k0, v0) :: dict_setitem rest k v

/-- Annotations accepted at registration (`Extras...`). An `arg` carries its
name and its default, the null handle when no default was declared. -/
inductive Extra where
  | doc (text : String)
  | policy (p : return_value_policy)
  | arg (name : StrName) (default_ : handle)
  | prepend
  | keep_alive
  | call_guard

/-- The annotation types counted by `parse_extras` and `bind_function`. -/
inductive ExtraType where
  | doc
  | policy
  | arg
  | prepend
  | other
  deriving DecidableEq, Repr

/-- The type of an annotation value. -/
def Extra.type : Extra → ExtraType
  | .doc _ => .doc
  | .policy _ => .policy
  | .arg _ _ => .arg
  | .prepend => .prepend
  | .keep_alive => .other
  | .call_guard => .other

/-- Kind of a declared parameter type: `py::args`, `py::kwargs`, or any
other type. -/
inductive ParamKind where
  | normal
  | args
  | kwargs
  deriving DecidableEq, Repr

/-- A declared parameter type with its `type_caster<T>::load`: `load v convert`
is `some x` when the load succeeds leaving `x` in `caster.value`. -/
structure Param where
  kind : ParamKind
  load : Value → Bool → Option Value

/-- Modelled from the spec: `types_count_v<T, Ts...>` (declared in a header
that is not part of the sources at hand), the number of occurrences of a type
in a type list. -/
def types_count_v {α β : Type} [DecidableEq β] (key : α → β) (t : β) : List α → Nat
  | [] => 0
  | a :: rest => (if key a = t then 1 else 0) + types_count_v key t rest

/-- Modelled from the spec: `type_index_v<T, Ts...>` (declared in a header
that is not part of the sources at hand), the index of the first occurrence of
a type in a type list, and -1 when absent. -/
def type_index_v {α β : Type} [DecidableEq β] (key : α → β) (t : β) : List α → Int
  | [] => -1
  | a :: rest =>
    if key a = t then 0
    else if type_index_v key t rest = -1 then -1
    else type_index_v key t rest + 1

namespace impl

/-- Undefined behaviour reached by the C++ code. -/
inductive Fault where
  | null_arguments
  | stack_out_of_bounds
  | inactive_storage
  | null_this
  | use_after_free
  | wild_pointer
  deriving DecidableEq, Repr

/-- The code of a native callable: from loaded argument values to its native
return value. -/
abbrev Native := List Value → Value

/-- The table `function_record::arguments_t`. `names` is the `std::map`: the
newest entry for a key is first, and lookup returns the first entry. -/
structure arguments_t where
  names : List (StrName × Nat)
  defaults : List handle

/-- Lookup `names.find(name)`; `none` is `names.end()`. -/
def names_find : List (StrName × Nat) → StrName → Option Nat
  | [], _ => none
  | (k, i) :: rest, name => if k = name then some i else names_find rest name

/-- Assignment `names[name] = i`. -/
def names_assign (names : List (StrName × Nat)) (name : StrName) (i : Nat) :
    List (StrName × Nat) :=
  (name, i) :: names

/-- The struct `arguments_info_t`. -/
structure arguments_info_t where
  argc : Int := 0
  args_pos : Int := -1
  kwargs_pos : Int := -1
  deriving DecidableEq, Repr

/-- The struct `extras_info_t`. -/
structure extras_info_t where
  doc_pos : Int := -1
  named_argc : Int := 0
  policy_pos : Int := -1
  deriving DecidableEq, Repr

/-- One instantiation `template_parser<Callable, tuple<Extras...>, tuple<Args...>>`:
the layout facts of `Callable` used by the storage choice, the return type's
`void`-ness and `type_caster<ret>::cast`, the annotations and the parameter
types. -/
structure template_parser_t where
  trivially_copyable : Bool
  sizeof_Callable : Nat
  ret_void : Bool
  ret_cast : Value → return_value_policy → handle
  Extras : List Extra
  Args : List Param

/-- The condition `is_trivially_copyable_v<T> && sizeof(T) <= sizeof(buffer)`
shared by the constructor and `_as`. -/
def template_parser_t.fits_buffer (P : template_parser_t) : Bool :=
  P.trivially_copyable && decide (P.sizeof_Callable ≤ 16)

/-- The values returned by `parse_arguments`, without its static assertions. -/
def template_parser_t.arguments_info (P : template_parser_t) : arguments_info_t :=
  { argc := (P.Args.length : Int)
    args_pos := type_index_v Param.kind ParamKind.args P.Args
    kwargs_pos := type_index_v Param.kind ParamKind.kwargs P.Args }

/-- The function `parse_arguments`: `none` when a static assertion rejects the
parameter list. -/
def template_parser_t.parse_arguments (P : template_parser_t) : Option arguments_info_t :=
  let args_count := types_count_v Param.kind ParamKind.args P.Args
  let kwargs_count := types_count_v Param.kind ParamKind.kwargs P.Args
  let args_pos := type_index_v Param.kind ParamKind.args P.Args
  let kwargs_pos := type_index_v Param.kind ParamKind.kwargs P.Args
  if ¬ args_count ≤ 1 then none
  else if ¬ kwargs_count ≤ 1 then none
  else if kwargs_count = 1 ∧ ¬ kwargs_pos = (P.Args.length : Int) - 1 then none
  else if kwargs_count = 1 ∧ args_count = 1 ∧ ¬ args_pos = kwargs_pos - 1 then none
  else some { argc := (P.Args.length : Int), args_pos := args_pos, kwargs_pos := kwargs_pos }

/-- The number of non-capture parameters,
`argc - (args_pos != -1) - (kwargs_pos != -1)`. -/
def normal_argc_of (info : arguments_info_t) : Int :=
  info.argc - (if info.args_pos ≠ -1 then 1 else 0) - (if info.kwargs_pos ≠ -1 then 1 else 0)

/-- The values returned by `parse_extras`, without its static assertions. -/
def template_parser_t.extras_info (P : template_parser_t) : extras_info_t :=
  { doc_pos := type_index_v Extra.type ExtraType.doc P.Extras
    named_argc := (types_count_v Extra.type ExtraType.arg P.Extras : Int)
    policy_pos := type_index_v Extra.type ExtraType.policy P.Extras }

/-- The function `parse_extras`: `none` when a static assertion rejects the
annotations. -/
def template_parser_t.parse_extras (P : template_parser_t) : Option extras_info_t :=
  let doc_count := types_count_v Extra.type ExtraType.doc P.Extras
  let policy_count := types_count_v Extra.type ExtraType.policy P.Extras
  let named_argc : Int := (types_count_v Extra.type ExtraType.arg P.Extras : Int)
  let normal_argc := normal_argc_of P.arguments_info
  if ¬ doc_count ≤ 1 then none
  else if ¬ policy_count ≤ 1 then none
  else if ¬ (named_argc = 0 ∨ named_argc = normal_argc) then none
  else some P.extras_info

/-- The instantiation compiles: both `parse_arguments` and `parse_extras`
pass their static assertions. -/
def template_parser_t.accepted (P : template_parser_t) : Bool :=
  P.parse_arguments.isSome && P.parse_extras.isSome

/-- The anonymous union `{ void* data; char buffer[16]; }` holding the closure. -/
inductive Storage where
  | buffer (f : Native)
  | data (f : Native)

/-- The two destructor lambdas installed by the constructor. -/
inductive destructor_t where
  | destroy_in_buffer
  | delete_data
  deriving DecidableEq, Repr

/-- The fields of `function_record` other than `next`. -/
structure function_record where
  storage : Storage
  wrapper : template_parser_t
  arguments : Option arguments_t := none
  destructor : Option destructor_t := none
  name : String := "anonymous"
  policy : return_value_policy := return_value_policy.automatic

/-- What a wrapper or a dispatch does besides returning: a wrapper call on the
record at a chain position with a convert flag, and the invocation of a native
callable with loaded values, the policy handed to `invoke`, and the value it
produced. -/
inductive Event where
  | attempt (position : Nat) (convert : Bool)
  | invoke (f : Native) (values : List Value) (policy : return_value_policy)

/-- The call arguments: the positional values `[begin, end)` and the keyword
pairs flattened behind `end` up to the stack pointer. The pair at list
position `j` occupies `view.end()[2 * j]` (its name) and
`view.end()[2 * j + 1]` (its value). -/
structure ArgsView where
  args : List Value
  kw : List (StrName × Value)

/-- The effect of `std::memcpy(stack, src, n * sizeof(handle))` on the
stack array: the first `n` slots take the first `n` entries of `src`. -/
def memcpy (stack src : List handle) (n : Nat) : List handle :=
  src.take n ++ stack.drop n

/-- The lambda `add_arguments` of `initialize`: an `arg` annotation maps its
name to the next default index and pushes its default; other annotations are
skipped. -/
def add_arguments (arguments : arguments_t) (extra : Extra) : arguments_t :=
  match extra with
  | Extra.arg name default_ =>
    { names := names_assign arguments.names name arguments.defaults.length
      defaults := arguments.defaults ++ [default_] }
  | _ => arguments

/-- The member `initialize`: sets the policy from the policy annotation and
builds the arguments table from the `arg` annotations, in order. -/
def template_parser_t.initialize_record (P : template_parser_t) (record : function_record) :
    function_record :=
  let record1 : function_record :=
    if P.extras_info.policy_pos ≠ -1 then
      match P.Extras.get? P.extras_info.policy_pos.toNat with
      | some (Extra.policy p) => { record with policy := p }
      | _ => record
    else record
  if 0 < P.extras_info.named_argc then
    { record1 with
      arguments := some (P.Extras.foldl add_arguments { names := [], defaults := [] }) }
  else record1

/-- The constructor `function_record(Fn&& f, const char* name, const Extras&...)`. -/
def function_record.ctor (P : template_parser_t) (f : Native) (name : String) : function_record :=
  let record : function_record :=
    if P.fits_buffer then
      { storage := Storage.buffer f, wrapper := P,
        destructor := some destructor_t.destroy_in_buffer, name := name }
    else
      { storage := Storage.data f, wrapper := P,
        destructor := some destructor_t.delete_data, name := name }
  { P.initialize_record record with wrapper := P }

/-- The member `append`, on the record `this` (its fields `self` and the chain
`next` hanging from it): walks to the record whose `next` is null and links
`record` there. The result is the chain starting at `this`. -/
def function_record.append (self : function_record) (next : List function_record)
    (record : List function_record) : List function_record :=
  match next with
  | [] => self :: record
  | p :: rest => self :: function_record.append p rest record

/-- The member `_as<T>()` for the `Callable` of instantiation `P`: reads the
buffer or the heap pointer according to `P`; reading the member of the union
that the constructor did not write is a fault. -/
def function_record._as (record : function_record) (P : template_parser_t) : Except Fault Native :=
  match P.fits_buffer, record.storage with
  | true, Storage.buffer f => .ok f
  | false, Storage.data f => .ok f
  | _, _ => .error Fault.inactive_storage

/-- The function `invoke`: calls the native callable on the loaded values and
returns `None` for a `void` return type, else the return value cast under
`policy`. -/
def invoke (P : template_parser_t) (fn : Native) (values : List Value)
    (policy : return_value_policy) : handle :=
  if P.ret_void then some Value.none else P.ret_cast (fn values) policy

/-- The keyword loop of `wrapper` (the `while(index < n)` under
`named_argc > 0`): places each leading pair whose name is found in `names`
and stops at the first pair whose name is not found. Returns the stack and the
pairs from `index` on. -/
def resolve_keywords (names : List (StrName × Nat)) :
    List handle → List (StrName × Value) → Except Fault (List handle × List (StrName × Value))
  | stack, [] => .ok (stack, [])
  | stack, (key, value) :: rest =>
    match names_find names key with
    | some slot =>
      if slot < stack.length then resolve_keywords names (stack.set slot (some value)) rest
      else .error Fault.stack_out_of_bounds
    | none => .ok (stack, (key, value) :: rest)

/-- The loop packing the keyword pairs from `index` on into `dict kwargs`. -/
def pack_kwargs : List (StrName × Value) → List (StrName × Value) → List (StrName × Value)
  | kwargs, [] => kwargs
  | kwargs, (key, value) :: rest => pack_kwargs (dict_setitem kwargs key value) rest

/-- The declaration of `stack` and the pre-fill with the defaults of the
record passed to the wrapper (the `memcpy` under `named_argc > 0`). -/
def template_parser_t.load_defaults (P : template_parser_t) (record : function_record) :
    Except Fault (List handle) :=
  let argc := P.arguments_info.argc.toNat
  let stack0 : List handle := List.replicate (argc + 1) none
  if 0 < P.extras_info.named_argc then
    match record.arguments with
    | none => .error Fault.null_arguments
    | some arguments =>
      if arguments.defaults.length ≤ argc + 1 then
        .ok (memcpy stack0 arguments.defaults arguments.defaults.length)
      else .error Fault.stack_out_of_bounds
  else .ok stack0

/-- The copy of the leading positional values into the stack and the packing
of the surplus into the `py::args` slot. -/
def template_parser_t.load_positional (P : template_parser_t) (stack1 : List handle)
    (view : ArgsView) : List handle :=
  let args_pos := P.arguments_info.args_pos
  let normal_argc := normal_argc_of P.arguments_info
  let size := (min (view.args.length : Int) normal_argc).toNat
  let stack2 := memcpy stack1 (view.args.map some) size
  if args_pos ≠ -1 then
    let n := (max ((view.args.length : Int) - normal_argc) 0).toNat
    stack2.set args_pos.toNat (some (Value.tuple ((view.args.drop normal_argc.toNat).take n)))
  else stack2

/-- The keyword matching against the name map of the record passed to the
wrapper (skipped when `named_argc == 0`): the stack and the pairs from `index`
on. -/
def template_parser_t.match_keywords (P : template_parser_t) (record : function_record)
    (stack3 : List handle) (view : ArgsView) :
    Except Fault (List handle × List (StrName × Value)) :=
  if 0 < P.extras_info.named_argc then
    match record.arguments with
    | none => .error Fault.null_arguments
    | some arguments => resolve_keywords arguments.names stack3 view.kw
  else .ok (stack3, view.kw)

/-- The packing of the pairs from `index` on into the `py::kwargs` slot, after
which `index == n`. -/
def template_parser_t.pack_capture (P : template_parser_t) (stack4 : List handle)
    (rest : List (StrName × Value)) : List handle × List (StrName × Value) :=
  if P.arguments_info.kwargs_pos ≠ -1 then
    (stack4.set P.arguments_info.kwargs_pos.toNat (some (Value.dict (pack_kwargs [] rest))), [])
  else (stack4, rest)

/-- The slot-filling part of `wrapper` (from the declaration of `stack` to the
packing of `kwargs`): returns the stack of `argc + 1` slots and the keyword
pairs from `index` on (empty exactly when `index == n`). `record` is the
record passed to the wrapper. -/
def template_parser_t.bind_slots (P : template_parser_t) (record : function_record)
    (view : ArgsView) : Except Fault (List handle × List (StrName × Value)) :=
  match P.load_defaults record with
  | .error e => .error e
  | .ok stack1 =>
    match P.match_keywords record (P.load_positional stack1 view) view with
    | .error e => .error e
    | .ok (stack4, rest) => .ok (P.pack_capture stack4 rest)

/-- The binding stage of `wrapper`, everything before type conversion: the
positional-count guard, the slot filling, the check for left-over keyword
pairs and the check for empty slots. `some stack` is the filled array of
`argc` slots, `none` is the no-match return `handle()`. -/
def template_parser_t.bind (P : template_parser_t) (record : function_record)
    (view : ArgsView) : Except Fault (Option (List handle)) :=
  let argc := P.arguments_info.argc.toNat
  if P.arguments_info.args_pos = -1 ∧ (view.args.length : Int) > normal_argc_of P.arguments_info then
    .ok none
  else
    match P.bind_slots record view with
    | .error e => .error e
    | .ok (stack, rest) =>
      if ¬ rest.isEmpty then .ok none
      else if (stack.take argc).any Option.isNone then .ok none
      else .ok (some (stack.take argc))

/-- The fold `(casters.load(stack[Is], convert) && ...)`: loads the slots in
parameter order and stops at the first failure. -/
def load_all : List Param → List handle → Bool → Option (List Value)
  | [], _, _ => some []
  | _ :: _, [], _ => none
  | _ :: _, none :: _, _ => none
  | T :: Ts, some v :: slots, convert =>
    match T.load v convert with
    | none => none
    | some x =>
      match load_all Ts slots convert with
      | none => none
      | some xs => some (x :: xs)

/-- The member `wrapper` of instantiation `P`, called on `record`: the
returned handle (null for no match) and the events it caused. -/
def template_parser_t.wrapper (P : template_parser_t) (record : function_record)
    (view : ArgsView) (convert : Bool) : Except Fault (handle × List Event) :=
  match P.bind record view with
  | .error e => .error e
  | .ok none => .ok (none, [])
  | .ok (some stack) =>
    match load_all P.Args stack convert with
    | none => .ok (none, [])
    | some values =>
      match record._as P with
      | .error e => .error e
      | .ok fn => .ok (invoke P fn values record.policy, [Event.invoke fn values record.policy])

/-- How a dispatch ends: with a returned non-null value or with a raised
`TypeError` carrying a message. -/
inductive Outcome where
  | returned (result : Value)
  | TypeError (msg : String)

/-- One `while(p != nullptr)` loop of `operator()`: `this_` is the record the
dispatch was called on, `p` walks the chain from `position`. Each wrapper is
called as `p->wrapper(*this, view, convert, {})`. -/
def walk (this_ : function_record) (view : ArgsView) (convert : Bool) :
    Nat → List function_record → Except Fault (handle × List Event)
  | _, [] => .ok (none, [])
  | position, p :: next =>
    match p.wrapper.wrapper this_ view convert with
    | .error e => .error e
    | .ok (some result, events) => .ok (some result, Event.attempt position convert :: events)
    | .ok (none, events) =>
      match walk this_ view convert (position + 1) next with
      | .error e => .error e
      | .ok (result, later) => .ok (result, Event.attempt position convert :: (events ++ later))

/-- The member `operator()` on the record `this` (fields `self`, chain `next`):
the strict walk, then the converting walk, then the `TypeError`. -/
def function_record.operator_call (self : function_record) (next : List function_record)
    (view : ArgsView) : Except Fault (Outcome × List Event) :=
  match walk self view false 0 (self :: next) with
  | .error e => .error e
  | .ok (some result, events) => .ok (Outcome.returned result, events)
  | .ok (none, events) =>
    match walk self view true 0 (self :: next) with
    | .error e => .error e
    | .ok (some result, later) => .ok (Outcome.returned result, events ++ later)
    | .ok (none, later) => .ok (Outcome.TypeError "no matching function found", events ++ later)

/-- The attribute table of the object a function is bound on: the chain
reachable from the userdata of the callable stored under each name. -/
abbrev Attrs := String → Option (List function_record)

/-- The function `bind_function`: a first registration stores a fresh
one-record chain; a later one appends the new record to the existing chain, or
with a `prepend` annotation makes it the head and appends the old chain to it. -/
def bind_function (obj : Attrs) (name : String) (P : template_parser_t) (fn : Native) :
    Except Fault Attrs :=
  match obj name with
  | none => .ok (Function.update obj name (some [function_record.ctor P fn name]))
  | some userdata =>
    let record := function_record.ctor P fn name
    if types_count_v Extra.type ExtraType.prepend P.Extras ≠ 0 then
      .ok (Function.update obj name (some (function_record.append record [] userdata)))
    else
      match userdata with
      | [] => .error Fault.null_this
      | last :: next =>
        .ok (Function.update obj name (some (function_record.append last next [record])))

/-- The native invocations recorded in an event list, in order. -/
def invocations : List Event → List (Native × List Value × return_value_policy)
  | [] => []
  | Event.attempt _ _ :: rest => invocations rest
  | Event.invoke f values policy :: rest => (f, values, policy) :: invocations rest

/-! ## Sample parameter types, instantiations and records -/

/-- A caster for an integer parameter: loads an `int` as itself. -/
def int_caster : Param :=
  { kind := ParamKind.normal
    load := fun v _ =>
      match v with
      | Value.int i => some (Value.int i)
      | _ => none }

/-- A caster for a floating-point parameter: loads a `float` as itself, and
with conversion enabled also an `int`. -/
def float_caster : Param :=
  { kind := ParamKind.normal
    load := fun v convert =>
      match v with
      | Value.float m e => some (Value.float m e)
      | Value.int i => if convert then some (Value.float i 0) else none
      | _ => none }

/-- A caster for a string parameter: loads a `str` as itself. -/
def str_caster : Param :=
  { kind := ParamKind.normal
    load := fun v _ =>
      match v with
      | Value.str s => some (Value.str s)
      | _ => none }

/-- A caster for `py::args`: loads a tuple as itself. -/
def args_caster : Param :=
  { kind := ParamKind.args
    load := fun v _ =>
      match v with
      | Value.tuple items => some (Value.tuple items)
      | _ => none }

/-- A caster for `py::kwargs`: loads a dict as itself. -/
def kwargs_caster : Param :=
  { kind := ParamKind.kwargs
    load := fun v _ =>
      match v with
      | Value.dict items => some (Value.dict items)
      | _ => none }

/-- The numeric tag of a policy, used by `sample_cast` to make the policy
visible in a returned value. -/
def policy_tag : return_value_policy → Int
  | .automatic => 0
  | .automatic_reference => 1
  | .take_ownership => 2
  | .copy => 3
  | .move => 4
  | .reference => 5
  | .reference_internal => 6

/-- A return caster that wraps the native value together with the tag of the
policy it was cast under. -/
def sample_cast (v : Value) (policy : return_value_policy) : handle :=
  some (Value.tuple [v, Value.int (policy_tag policy)])

/-- An instantiation for a function pointer (trivially copyable, 8 bytes)
with a non-void return type cast by `sample_cast`. -/
def sample_instantiation (Extras : List Extra) (Args : List Param) : template_parser_t :=
  { trivially_copyable := true, sizeof_Callable := 8, ret_void := false,
    ret_cast := sample_cast, Extras := Extras, Args := Args }

/-- A native function that ignores its arguments and returns the integer `k`. -/
def const_fn (k : Int) : Native := fun _ => Value.int k

/-- The record of `add(int, int)`, returning 1. -/
def add_int : function_record :=
  function_record.ctor (sample_instantiation [] [int_caster, int_caster]) (const_fn 1) "add"

/-- The record of `add(float, float)`, returning 2. -/
def add_float : function_record :=
  function_record.ctor (sample_instantiation [] [float_caster, float_caster]) (const_fn 2) "add"

/-- The record of `add(float, float)` registered with the policy annotation
`return_value_policy::reference`, returning 2. -/
def add_float_ref : function_record :=
  function_record.ctor
    (sample_instantiation [Extra.policy return_value_policy.reference] [float_caster, float_caster])
    (const_fn 2) "add"

/-- The record of `f(int a, int b)` with the names `a` (1) and `b` (2) and no
defaults, returning 1. -/
def f_int_int_named : function_record :=
  function_record.ctor
    (sample_instantiation [Extra.arg 1 none, Extra.arg 2 none] [int_caster, int_caster])
    (const_fn 1) "f"

/-- The record of `f(str s = "z")` with the name `s` (3), returning 2. -/
def f_str_default : function_record :=
  function_record.ctor
    (sample_instantiation [Extra.arg 3 (some (Value.str "z"))] [str_caster])
    (const_fn 2) "f"

/-- The value of the last keyword pair whose name the map `names` sends to
slot `i`, if there is one. -/
def last_keyword (names : List (StrName × Nat)) (i : Nat) : List (StrName × Value) → Option Value
  | [] => none
  | (key, value) :: rest =>
    match last_keyword names i rest with
    | some later => some later
    | none => if names_find names key = some i then some value else none

/-- The content the binding rule of the specification gives slot `i`: the
value of the last supplied keyword pair naming parameter `i` if there is one,
otherwise the `i`-th positional value if there is one, otherwise the declared
default of parameter `i` (the null handle when none was declared). -/
def claimed_slot (arguments : arguments_t) (view : ArgsView) (i : Nat) : handle :=
  match last_keyword arguments.names i view.kw with
  | some value => some value
  | none =>
    match view.args[i]? with
    | some value => some value
    | none => arguments.defaults.getD i none

/-- The instantiation for `greet(name, greeting = "hello")` with the names
`name` (1) and `greeting` (2). -/
def greet_parser_t : template_parser_t :=
  sample_instantiation [Extra.arg 1 none, Extra.arg 2 (some (Value.str "hello"))]
    [str_caster, str_caster]

/-- The record of `greet(name, greeting = "hello")`, returning 0. -/
def greet : function_record :=
  function_record.ctor greet_parser_t (const_fn 0) "greet"

/-- The arguments table of `greet`. -/
def greet_table : arguments_t :=
  { names := [(2, 1), (1, 0)], defaults := [none, some (Value.str "hello")] }

/-- The instantiation for a callable `g(py::args, int)`: the capture
parameter is declared before a normal parameter and there is no `py::kwargs`. -/
def args_first_parser_t : template_parser_t :=
  sample_instantiation [] [args_caster, int_caster]

/-- The record of `g(py::args, int)`, returning 7. -/
def args_first : function_record :=
  function_record.ctor args_first_parser_t (const_fn 7) "g"

/-- The instantiation for a callable `h(int, py::args)`. -/
def args_last_parser_t : template_parser_t :=
  sample_instantiation [] [int_caster, args_caster]

/-- The record of `h(int, py::args)`, returning 8. -/
def args_last : function_record :=
  function_record.ctor args_last_parser_t (const_fn 8) "h"

/-- An object on which `add(int, int)` is already bound under `"add"`. -/
def module_with_add : Attrs :=
  fun name => if name = "add" then some [add_int] else none

/-- The instantiation for `add(float, float)` registered with `py::prepend()`. -/
def add_float_prepend_parser_t : template_parser_t :=
  sample_instantiation [Extra.prepend] [float_caster, float_caster]

/-- The name map a wrapper finds on a record: the map of its arguments table,
empty when the record has no table. -/
def function_record.names (record : function_record) : List (StrName × Nat) :=
  match record.arguments with
  | some arguments => arguments.names
  | none => []

/-- A keyword pair whose name is a declared named parameter, that is, is found
in the name map. -/
def declared (names : List (StrName × Nat)) (kv : StrName × Value) : Bool :=
  (names_find names kv.1).isSome

/-- The mapping the specification gives the `py::kwargs` parameter: the
supplied keyword pairs whose name is not a declared named parameter, in
supplied order. -/
def claimed_kwargs (names : List (StrName × Nat)) (kw : List (StrName × Value)) :
    List (StrName × Value) :=
  kw.filter (fun kv => !declared names kv)

/-- The instantiation for `h(int a, py::kwargs)` with the name `a` (1). -/
def kwargs_parser_t : template_parser_t :=
  sample_instantiation [Extra.arg 1 none] [int_caster, kwargs_caster]

/-- The record of `h(int a, py::kwargs)`, returning 9. -/
def kwargs_record : function_record :=
  function_record.ctor kwargs_parser_t (const_fn 9) "h"

/-! ## Property setters -/

/-- The native instance behind `view[0]`, as the sequence of its data members. -/
abbrev Instance := List Value

/-- The three shapes of `Setter` that `setter_wrapper` distinguishes, each with
the `type_caster` of the value it takes: a pointer to data member (the member
it designates), a pointer to member function, and a function pointer or
lambda taking the instance first. An accessor is given by its effect on the
instance. -/
inductive Setter where
  | member_object (member : Nat) (caster : Param)
  | member_function (method : Instance → Value → Instance) (caster : Param)
  | function (fn : Instance → Value → Instance) (caster : Param)

/-- The caster `setter_wrapper` declares for a setter. -/
def Setter.caster : Setter → Param
  | .member_object _ caster => caster
  | .member_function _ caster => caster
  | .function _ caster => caster

/-- What a setter does to the instance: an assignment to a data member or a
call of the accessor, with the converted value. -/
inductive SetterEvent where
  | assign (member : Nat) (value : Value)
  | call (value : Value)

/-- The function `setter_wrapper<Setter>` on the instance `self` (from
`view[0]`) and the value `arg` (`view[1]`): the outcome, the instance
afterwards and what was done to it. -/
def setter_wrapper (setter : Setter) (self : Instance) (arg : Value) :
    Outcome × Instance × List SetterEvent :=
  match setter with
  | .member_object member caster =>
    match caster.load arg true with
    | some value => (Outcome.returned Value.none, self.set member value,
        [SetterEvent.assign member value])
    | none => (Outcome.TypeError "Unexpected argument type", self, [])
  | .member_function method caster =>
    match caster.load arg true with
    | some value => (Outcome.returned Value.none, method self value, [SetterEvent.call value])
    | none => (Outcome.TypeError "Unexpected argument type", self, [])
  | .function fn caster =>
    match caster.load arg true with
    | some value => (Outcome.returned Value.none, fn self value, [SetterEvent.call value])
    | none => (Outcome.TypeError "Unexpected argument type", self, [])

/-- What the setter does with a converted value: the instance afterwards and
the single assignment or accessor call. -/
def Setter.apply (setter : Setter) (self : Instance) (value : Value) :
    Instance × List SetterEvent :=
  match setter with
  | .member_object member _ => (self.set member value, [SetterEvent.assign member value])
  | .member_function method _ => (method self value, [SetterEvent.call value])
  | .function fn _ => (fn self value, [SetterEvent.call value])

/-! ## Conversion and policy, as the specification words them -/

/-- The slots load as the parameter types, one by one: slot `i` holds a value
that `type_caster<Args[i]>::load` accepts under `convert`, leaving `values[i]`. -/
def loads_as (convert : Bool) : List Param → List handle → List Value → Prop
  | [], _, [] => True
  | T :: Ts, some v :: slots, x :: xs => T.load v convert = some x ∧ loads_as convert Ts slots xs
  | _, _, _ => False

/-- The named-argument descriptors among the annotations, in declaration
order: the name and the default of each. -/
def arg_entries : List Extra → List (StrName × handle)
  | [] => []
  | Extra.arg name default_ :: rest => (name, default_) :: arg_entries rest
  | _ :: rest => arg_entries rest

/-- The instantiation for `k(int x, int y = 2)` registered with a
documentation string and a policy between the two `arg` annotations. -/
def interleaved_parser_t : template_parser_t :=
  sample_instantiation
    [Extra.doc "k", Extra.arg 5 none, Extra.policy return_value_policy.copy,
      Extra.arg 6 (some (Value.int 2))]
    [int_caster, int_caster]

/-! ## Registration followed by a call -/

/-- The trampoline `_wrapper`: recovers the chain stored under the name and
runs `operator()` on its head. -/
def _wrapper (obj : Attrs) (name : String) (view : ArgsView) :
    Except Fault (Outcome × List Event) :=
  match obj name with
  | some (self :: next) => function_record.operator_call self next view
  | _ => .error Fault.null_this

/-- The calls `bind_function(obj, name, fn, ...)` for a list of callables, in
order, on an object with no attribute. -/
def register_all (name : String) :
    List (template_parser_t × Native) → Attrs → Except Fault Attrs
  | [], obj => .ok obj
  | (P, fn) :: rest, obj =>
    match bind_function obj name P fn with
    | .error e => .error e
    | .ok obj1 => register_all name rest obj1

/-- The instantiation for `f(int a, int b, int c)` with the names `a` (1),
`b` (2), `c` (4) and no defaults. -/
def three_named_parser_t : template_parser_t :=
  sample_instantiation [Extra.arg 1 none, Extra.arg 2 none, Extra.arg 4 none]
    [int_caster, int_caster, int_caster]

/-- The instantiation for `f(str s = "z")` with the name `s` (3). -/
def str_default_parser_t : template_parser_t :=
  sample_instantiation [Extra.arg 3 (some (Value.str "z"))] [str_caster]

/-! ## Records in memory: destruction and move -/

/-- A `function_record` object in memory: its fields, the address held in
`next`, and whether the object has been deleted. -/
structure RecordCell where
  record : function_record
  next : Option Nat
  deleted : Bool := false

/-- What a destructor releases: the closure through `destructor(this)`, the
arguments table through `delete arguments`, a chained record through
`delete p`. -/
inductive Release where
  | closure (address : Nat) (how : destructor_t)
  | arguments_table (address : Nat)
  | record (address : Nat)
  deriving DecidableEq, Repr

/-- The memory holding records, by address, and the releases performed so far. -/
structure Heap where
  cells : List RecordCell
  released : List Release

/-- The destructor `~function_record()` on the object at `this_`, with a step
budget: `none` when the budget runs out. With `entry = true` it starts at the
top of the destructor, with `entry = false` at the test of `while(next)`. Each
iteration reads `next->next`, stores it in `this->next` and deletes the record
that `next` pointed to, which runs that record's destructor and then marks the
object deleted. Reading or deleting a deleted object is a fault. -/
def destroy : Nat → Bool → Nat → Heap → Option (Except Fault Heap)
  | 0, _, _, _ => none
  | budget + 1, true, this_, heap =>
    match heap.cells[this_]? with
    | none => some (.error Fault.wild_pointer)
    | some cell =>
      if cell.deleted then some (.error Fault.use_after_free)
      else
        let released1 :=
          match cell.record.destructor with
          | some how => heap.released ++ [Release.closure this_ how]
          | none => heap.released
        let released2 :=
          match cell.record.arguments with
          | some _ => released1 ++ [Release.arguments_table this_]
          | none => released1
        destroy budget false this_ { heap with released := released2 }
  | budget + 1, false, this_, heap =>
    match heap.cells[this_]? with
    | none => some (.error Fault.wild_pointer)
    | some cell =>
      match cell.next with
      | none => some (.ok heap)
      | some p =>
        match heap.cells[p]? with
        | none => some (.error Fault.wild_pointer)
        | some pointee =>
          if pointee.deleted then some (.error Fault.use_after_free)
          else
            let heap1 : Heap :=
              { heap with cells := heap.cells.set this_ { cell with next := pointee.next } }
            match destroy budget true p heap1 with
            | none => none
            | some (.error e) => some (.error e)
            | some (.ok heap2) =>
              match heap2.cells[p]? with
              | none => some (.error Fault.wild_pointer)
              | some gone =>
                destroy budget false this_
                  { cells := heap2.cells.set p { gone with deleted := true }
                    released := heap2.released ++ [Release.record p] }

/-- A chain of the given records laid out at the addresses `base`, `base + 1`,
and so on, each linked to the following one, the last to null. -/
def chain_cells : Nat → List function_record → List RecordCell
  | _, [] => []
  | _, [r] => [{ record := r, next := none }]
  | base, r :: rest => { record := r, next := some (base + 1) } :: chain_cells (base + 1) rest

/-- The releases of a destruction, when it ran to its end. -/
def releases_of : Option (Except Fault Heap) → Option (List Release)
  | some (.ok heap) => some heap.released
  | _ => none

/-- The fault of a destruction, when it hit one. -/
def fault_of : Option (Except Fault Heap) → Option Fault
  | some (.error e) => some e
  | _ => none

/-- C2, evaluated on the chain `add(int, int)` (policy `automatic`, closure
returning 1), `add(float, float)` (policy `reference`, closure returning 2)
and the call `add(1.5, 2.5)`: dispatch resolves to the second record, yet the
closure invoked and the policy applied are those of the head, because the
wrapper is called on `*this`; called on its own record the second wrapper
invokes its own closure under its own policy. -/
theorem operator_call_uses_head_closure_and_policy :
    function_record.operator_call add_int [add_float_ref]
        { args := [Value.float 3 (-1), Value.float 5 (-1)], kw := [] } =
      .ok (Outcome.returned (Value.tuple [Value.int 1, Value.int 0]),
        [Event.attempt 0 false, Event.attempt 1 false,
          Event.invoke (const_fn 1) [Value.float 3 (-1), Value.float 5 (-1)]
            return_value_policy.automatic]) ∧
    add_float_ref.wrapper.wrapper add_float_ref
        { args := [Value.float 3 (-1), Value.float 5 (-1)], kw := [] } false =
      .ok (some (Value.tuple [Value.int 2, Value.int 5]),
        [Event.invoke (const_fn 2) [Value.float 3 (-1), Value.float 5 (-1)]
          return_value_policy.reference]) :=
  ⟨rfl, rfl⟩

/-- C3, evaluated on the chain `f(int a, int b)` (no defaults),
`f(str s = "z")`: for the second candidate the wrapper reads the arguments
table of the head. The call `f()` finds no default for `s` and the call
`f(s = "q")` finds no name `s`, so both raise `TypeError`; with its own table
the second record binds `"z"`, respectively `"q"`. -/
theorem wrapper_reads_head_arguments_table :
    function_record.operator_call f_int_int_named [f_str_default] { args := [], kw := [] } =
      .ok (Outcome.TypeError "no matching function found",
        [Event.attempt 0 false, Event.attempt 1 false,
          Event.attempt 0 true, Event.attempt 1 true]) ∧
    f_str_default.wrapper.bind f_int_int_named { args := [], kw := [] } = .ok none ∧
    f_str_default.wrapper.bind f_str_default { args := [], kw := [] } =
      .ok (some [some (Value.str "z")]) ∧
    function_record.operator_call f_int_int_named [f_str_default]
        { args := [], kw := [(3, Value.str "q")] } =
      .ok (Outcome.TypeError "no matching function found",
        [Event.attempt 0 false, Event.attempt 1 false,
          Event.attempt 0 true, Event.attempt 1 true]) ∧
    f_str_default.wrapper.bind f_int_int_named { args := [], kw := [(3, Value.str "q")] } =
      .ok none ∧
    f_str_default.wrapper.bind f_str_default { args := [], kw := [(3, Value.str "q")] } =
      .ok (some [some (Value.str "q")]) :=
  ⟨rfl, rfl, rfl, rfl, rfl, rfl⟩

/-! ## Binding of named and default arguments -/

theorem add_arguments_fold_defaults_length (extras : List Extra) :
    ∀ acc : arguments_t, (extras.foldl add_arguments acc).defaults.length =
      acc.defaults.length + types_count_v Extra.type ExtraType.arg extras := by
  induction extras with
  | nil => intro acc; simp [types_count_v]
  | cons e rest ih =>
    intro acc
    rw [List.foldl_cons, ih]
    cases e <;> simp [add_arguments, types_count_v, Extra.type]
    omega

theorem add_arguments_fold_names_bound (extras : List Extra) :
    ∀ acc : arguments_t,
      (∀ k i, names_find acc.names k = some i → i < acc.defaults.length) →
      ∀ k i, names_find (extras.foldl add_arguments acc).names k = some i →
        i < (extras.foldl add_arguments acc).defaults.length := by
  induction extras with
  | nil => intro acc h; simpa using h
  | cons e rest ih =>
    intro acc h
    rw [List.foldl_cons]
    apply ih
    cases e with
    | arg name default_ =>
      intro k i hk
      simp only [add_arguments, names_assign, names_find] at hk
      simp only [add_arguments, List.length_append, List.length_singleton]
      split at hk
      · simp only [Option.some.injEq] at hk; omega
      · have := h k i hk; omega
    | _ => simpa [add_arguments] using h

/-- The constructor creates the arguments table exactly when an `arg`
annotation is present, by folding `add_arguments` over the annotations. -/
theorem ctor_arguments (P : template_parser_t) (f : Native) (name : String) :
    (function_record.ctor P f name).arguments =
      if 0 < P.extras_info.named_argc then
        some (P.Extras.foldl add_arguments { names := [], defaults := [] })
      else none := by
  unfold function_record.ctor template_parser_t.initialize_record
  by_cases hn : 0 < P.extras_info.named_argc
  · simp only [hn, if_true]
  · simp only [hn, if_false]
    split <;> split <;> (try split) <;> rfl

/-- When every keyword name is found in `names` with a slot inside the stack,
the keyword loop consumes every pair, and each slot ends with the value of the
last pair naming it, or its previous content when no pair names it. -/
theorem resolve_keywords_all_declared (names : List (StrName × Nat)) :
    ∀ (kw : List (StrName × Value)) (stack : List handle),
      (∀ kv ∈ kw, ∃ slot, names_find names kv.1 = some slot ∧ slot < stack.length) →
      ∃ stack1, resolve_keywords names stack kw = .ok (stack1, []) ∧
        stack1.length = stack.length ∧
        ∀ i, i < stack.length →
          stack1[i]? = match last_keyword names i kw with
            | some value => some (some value)
            | none => stack[i]? := by
  intro kw
  induction kw with
  | nil =>
    intro stack _
    exact ⟨stack, rfl, rfl, fun i _ => rfl⟩
  | cons kv rest ih =>
    intro stack h
    obtain ⟨key, value⟩ := kv
    obtain ⟨slot, hfind, hslot⟩ := h (key, value) (List.mem_cons_self _ _)
    have hrest : ∀ kv ∈ rest, ∃ slot1, names_find names kv.1 = some slot1 ∧
        slot1 < (stack.set slot (some value)).length := by
      intro kv1 hkv1
      obtain ⟨s1, h1, h2⟩ := h kv1 (List.mem_cons_of_mem _ hkv1)
      exact ⟨s1, h1, by simpa using h2⟩
    obtain ⟨stack1, hres, hlen, hget⟩ := ih (stack.set slot (some value)) hrest
    refine ⟨stack1, ?_, ?_, ?_⟩
    · simp only [resolve_keywords, hfind, hslot, if_true]
      exact hres
    · simpa using hlen
    · intro i hi
      rw [hget i (by simpa using hi)]
      simp only [last_keyword]
      cases hlast : last_keyword names i rest with
      | some later => rfl
      | none =>
        simp only [hfind, Option.some.injEq]
        by_cases hsi : slot = i
        · subst hsi
          simp [List.getElem?_set, hslot]
        · simp [List.getElem?_set, hsi]

theorem memcpy_length (stack src : List handle) (n : Nat) (hsrc : n ≤ src.length)
    (hstack : n ≤ stack.length) : (memcpy stack src n).length = stack.length := by
  simp [memcpy, List.length_take, List.length_drop]
  omega

theorem memcpy_getElem? (stack src : List handle) (n : Nat) (hsrc : n ≤ src.length) (i : Nat) :
    (memcpy stack src n)[i]? = if i < n then src[i]? else stack[i]? := by
  unfold memcpy
  by_cases hi : i < n
  · rw [if_pos hi, List.getElem?_append_left (by simp; omega), List.getElem?_take_of_lt hi]
  · rw [if_neg hi, List.getElem?_append_right (by simp; omega), List.getElem?_drop]
    congr 1
    simp [List.length_take]
    omega

theorem last_keyword_none_of_bound (names : List (StrName × Nat)) (n i : Nat)
    (hnames : ∀ k j, names_find names k = some j → j < n) (hi : n ≤ i) :
    ∀ kw : List (StrName × Value), last_keyword names i kw = none := by
  intro kw
  induction kw with
  | nil => rfl
  | cons kv rest ih =>
    obtain ⟨key, value⟩ := kv
    simp only [last_keyword, ih]
    split
    · rename_i h
      have := hnames key i h
      omega
    · rfl

theorem arguments_info_argc_toNat (P : template_parser_t) :
    P.arguments_info.argc.toNat = P.Args.length := by
  simp [template_parser_t.arguments_info]

theorem normal_argc_no_capture (P : template_parser_t)
    (hargs : P.arguments_info.args_pos = -1) (hkwargs : P.arguments_info.kwargs_pos = -1) :
    normal_argc_of P.arguments_info = (P.Args.length : Int) := by
  unfold normal_argc_of
  rw [hargs, hkwargs]
  simp [template_parser_t.arguments_info]

/-- Slot filling for a signature without capture parameters on a record whose
table has one default per parameter and slots below `argc`: when at most
`argc` positional values are supplied and every keyword name is in the table,
slot `i` ends with `claimed_slot` and no keyword pair is left over. -/
theorem bind_slots_named_no_capture (P : template_parser_t) (record : function_record)
    (view : ArgsView) (arguments : arguments_t)
    (hargs : P.arguments_info.args_pos = -1) (hkwargs : P.arguments_info.kwargs_pos = -1)
    (hnamed : 0 < P.extras_info.named_argc)
    (htable : record.arguments = some arguments)
    (hdefaults : arguments.defaults.length = P.Args.length)
    (hnames : ∀ k j, names_find arguments.names k = some j → j < P.Args.length)
    (hdecl : ∀ kv ∈ view.kw, names_find arguments.names kv.1 ≠ none)
    (hsize : view.args.length ≤ P.Args.length) :
    P.bind_slots record view =
      .ok ((List.range P.Args.length).map (claimed_slot arguments view) ++ [none], []) := by
  have hnorm := normal_argc_no_capture P hargs hkwargs
  have hargc := arguments_info_argc_toNat P
  have hmin : (min (view.args.length : Int) (P.Args.length : Int)).toNat = view.args.length := by
    rw [min_eq_left (by exact_mod_cast hsize)]; simp
  obtain ⟨stack4, hres, hlen4, hget⟩ :=
    resolve_keywords_all_declared arguments.names view.kw
      (memcpy (memcpy (List.replicate (P.Args.length + 1) none) arguments.defaults
        arguments.defaults.length) (view.args.map some) view.args.length)
      (by
        intro kv hkv
        cases hf : names_find arguments.names kv.1 with
        | none => exact absurd hf (hdecl kv hkv)
        | some slot =>
          refine ⟨slot, rfl, ?_⟩
          have := hnames _ _ hf
          rw [memcpy_length _ _ _ (by simp) (by rw [memcpy_length] <;> simp <;> omega),
            memcpy_length _ _ _ (le_refl _) (by simp; omega)]
          simp; omega)
  have hlen4b : stack4.length = P.Args.length + 1 := by
    rw [hlen4, memcpy_length _ _ _ (by simp) (by rw [memcpy_length] <;> simp <;> omega),
      memcpy_length _ _ _ (le_refl _) (by simp; omega)]
    simp
  have hstack : stack4 = (List.range P.Args.length).map (claimed_slot arguments view) ++ [none] := by
    apply List.ext_getElem?
    intro i
    by_cases hi : i < P.Args.length + 1
    · rw [hget i (by rw [← hlen4, hlen4b]; exact hi)]
      rw [memcpy_getElem? _ _ _ (by simp), memcpy_getElem? _ _ _ (le_refl _)]
      by_cases hin : i < P.Args.length
      · rw [List.getElem?_append_left (by simpa using hin)]
        have hr : (List.map (claimed_slot arguments view) (List.range P.Args.length))[i]? =
            some (claimed_slot arguments view i) := by
          simp [List.getElem?_map, List.getElem?_range hin]
        rw [hr]
        cases hl : last_keyword arguments.names i view.kw with
        | some value => simp [claimed_slot, hl]
        | none =>
          by_cases hia : i < view.args.length
          · simp [claimed_slot, hl, hia, List.getElem?_eq_getElem hia]
          · have hid : i < arguments.defaults.length := by omega
            simp [claimed_slot, hl, hia, hid, List.getElem?_eq_none (Nat.le_of_not_lt hia),
              List.getElem?_eq_getElem hid, List.getD_eq_getElem?_getD]
      · have hieq : i = P.Args.length := by omega
        subst hieq
        rw [last_keyword_none_of_bound arguments.names P.Args.length P.Args.length hnames
          (le_refl _)]
        simp [hdefaults]
        omega
    · rw [List.getElem?_eq_none (by omega), List.getElem?_eq_none (by simp; omega)]
  have hle : arguments.defaults.length ≤ P.Args.length + 1 := by omega
  simp only [template_parser_t.bind_slots, template_parser_t.load_defaults,
    template_parser_t.match_keywords, template_parser_t.load_positional,
    template_parser_t.pack_capture, hnamed, if_true, htable, hargs, hkwargs, hnorm, hargc,
    hmin, ne_eq, not_true_eq_false, if_false, hle, hres, hstack]

theorem parse_extras_named_argc (P : template_parser_t) (h : P.parse_extras.isSome = true) :
    P.extras_info.named_argc = 0 ∨
      P.extras_info.named_argc = normal_argc_of P.arguments_info := by
  unfold template_parser_t.parse_extras at h
  simp only at h
  split at h
  · simp at h
  · split at h
    · simp at h
    · split at h
      · simp at h
      · rename_i hn
        simp only [not_not] at hn
        simpa [template_parser_t.extras_info] using hn

/-- The table the constructor builds for an accepted signature without capture
parameters has one default per parameter and name slots below `argc`. -/
theorem ctor_table_shape (P : template_parser_t) (f : Native) (name : String)
    (arguments : arguments_t) (haccepted : P.accepted = true)
    (hargs : P.arguments_info.args_pos = -1) (hkwargs : P.arguments_info.kwargs_pos = -1)
    (htable : (function_record.ctor P f name).arguments = some arguments) :
    0 < P.extras_info.named_argc ∧ arguments.defaults.length = P.Args.length ∧
      ∀ k j, names_find arguments.names k = some j → j < P.Args.length := by
  rw [ctor_arguments] at htable
  have hnamed : 0 < P.extras_info.named_argc := by
    by_contra hn
    simp [hn] at htable
  simp only [hnamed, if_true, Option.some.injEq] at htable
  have hextras : P.parse_extras.isSome = true := by
    simp only [template_parser_t.accepted, Bool.and_eq_true] at haccepted
    exact haccepted.2
  have hcount : (types_count_v Extra.type ExtraType.arg P.Extras : Int) = P.Args.length := by
    rcases parse_extras_named_argc P hextras with h0 | h1
    · omega
    · rw [normal_argc_no_capture P hargs hkwargs] at h1
      simpa [template_parser_t.extras_info] using h1
  have hlen : arguments.defaults.length = P.Args.length := by
    rw [← htable, add_arguments_fold_defaults_length]
    simp only [List.length_nil, Nat.zero_add]
    exact_mod_cast hcount
  refine ⟨hnamed, hlen, ?_⟩
  intro k j hk
  rw [← hlen, ← htable]
  apply add_arguments_fold_names_bound P.Extras { names := [], defaults := [] } _ k j
  · rw [htable]; exact hk
  · intro k i h
    simp [names_find] at h

theorem any_isNone_map_range (g : Nat → handle) (n : Nat) :
    ((List.range n).map g).any Option.isNone = true ↔ ∃ i, i < n ∧ g i = none := by
  simp only [List.any_eq_true, List.mem_map, List.mem_range]
  constructor
  · rintro ⟨x, ⟨i, hi, rfl⟩, hx⟩
    exact ⟨i, hi, by simpa using hx⟩
  · rintro ⟨i, hi, hg⟩
    exact ⟨g i, ⟨i, hi, rfl⟩, by simp [hg]⟩

/-- C4 (amended): for a callable registered with named-argument metadata and
no capture parameters, and a call whose keyword names are all declared:
a call with more than `argc` positional values fails to bind; otherwise slot
`i` ends with the value of the last keyword pair naming parameter `i`, else the
`i`-th positional value, else the declared default, and binding fails exactly
when more than `argc` positional values are supplied or some slot resolved
this way is empty; when it succeeds the bound slots are these values. -/
theorem bind_named_defaults (P : template_parser_t) (f : Native) (name : String)
    (view : ArgsView) (arguments : arguments_t) (haccepted : P.accepted = true)
    (hargs : P.arguments_info.args_pos = -1) (hkwargs : P.arguments_info.kwargs_pos = -1)
    (htable : (function_record.ctor P f name).arguments = some arguments)
    (hdecl : ∀ kv ∈ view.kw, names_find arguments.names kv.1 ≠ none) :
    (view.args.length ≤ P.Args.length →
      P.bind_slots (function_record.ctor P f name) view =
        .ok ((List.range P.Args.length).map (claimed_slot arguments view) ++ [none], [])) ∧
    (P.bind (function_record.ctor P f name) view = .ok none ↔
      (P.Args.length < view.args.length ∨
        ∃ i, i < P.Args.length ∧ claimed_slot arguments view i = none)) ∧
    (¬ (P.Args.length < view.args.length ∨
        ∃ i, i < P.Args.length ∧ claimed_slot arguments view i = none) →
      P.bind (function_record.ctor P f name) view =
        .ok (some ((List.range P.Args.length).map (claimed_slot arguments view)))) := by
  obtain ⟨hnamed, hlen, hnames⟩ :=
    ctor_table_shape P f name arguments haccepted hargs hkwargs htable
  have hslots : view.args.length ≤ P.Args.length →
      P.bind_slots (function_record.ctor P f name) view =
        .ok ((List.range P.Args.length).map (claimed_slot arguments view) ++ [none], []) :=
    fun hsize => bind_slots_named_no_capture P _ view arguments hargs hkwargs hnamed htable
      hlen hnames hdecl hsize
  have hnorm := normal_argc_no_capture P hargs hkwargs
  have hargc := arguments_info_argc_toNat P
  have htake : (List.map (claimed_slot arguments view) (List.range P.Args.length) ++
      [none]).take P.Args.length =
        List.map (claimed_slot arguments view) (List.range P.Args.length) := by
    rw [List.take_append_of_le_length (by simp), List.take_of_length_le (by simp)]
  have hbig : P.Args.length < view.args.length →
      P.bind (function_record.ctor P f name) view = .ok none := by
    intro h
    unfold template_parser_t.bind
    have hg : (view.args.length : Int) > (P.Args.length : Int) := by exact_mod_cast h
    simp only [hargs, hnorm, hg, and_self, if_true]
  have hsmall : view.args.length ≤ P.Args.length →
      P.bind (function_record.ctor P f name) view =
        if ((List.range P.Args.length).map (claimed_slot arguments view)).any Option.isNone
        then .ok none
        else .ok (some ((List.range P.Args.length).map (claimed_slot arguments view))) := by
    intro h
    unfold template_parser_t.bind
    have hg : ¬ (view.args.length : Int) > (P.Args.length : Int) := by
      have : (view.args.length : Int) ≤ (P.Args.length : Int) := by exact_mod_cast h
      omega
    simp only [hargs, hnorm, hg, and_false, if_false, hslots h, hargc, htake,
      List.isEmpty_nil, not_true_eq_false]
  refine ⟨hslots, ?_, ?_⟩
  · constructor
    · intro hb
      by_cases h : P.Args.length < view.args.length
      · exact Or.inl h
      · right
        rw [hsmall (Nat.le_of_not_lt h)] at hb
        rw [← any_isNone_map_range]
        by_contra hany
        simp [hany] at hb
    · rintro (h | h)
      · exact hbig h
      · by_cases hb : P.Args.length < view.args.length
        · exact hbig hb
        · rw [hsmall (Nat.le_of_not_lt hb)]
          rw [← any_isNone_map_range] at h
          simp [h]
  · intro hno
    have h1 : view.args.length ≤ P.Args.length := by
      by_contra hc
      exact hno (Or.inl (Nat.lt_of_not_le hc))
    rw [hsmall h1]
    have h2 : ¬ ((List.range P.Args.length).map (claimed_slot arguments view)).any
        Option.isNone = true := by
      rw [any_isNone_map_range]
      exact fun hx => hno (Or.inr hx)
    simp [h2]

/-- Witness for C4 (amended) on `greet(name, greeting = "hello")`: the call
`greet("bob", greeting = "hi", greeting = "yo")` binds `"bob"` and the value of
the last keyword pair, and the call `greet("bob")` binds the default. -/
theorem bind_named_defaults_witness :
    greet_parser_t.bind greet
        { args := [Value.str "bob"], kw := [(2, Value.str "hi"), (2, Value.str "yo")] } =
      .ok (some [some (Value.str "bob"), some (Value.str "yo")]) ∧
    greet_parser_t.bind greet { args := [Value.str "bob"], kw := [] } =
      .ok (some [some (Value.str "bob"), some (Value.str "hello")]) := by
  constructor
  · refine (bind_named_defaults greet_parser_t (const_fn 0) "greet"
      { args := [Value.str "bob"], kw := [(2, Value.str "hi"), (2, Value.str "yo")] }
      greet_table rfl rfl rfl rfl ?_).2.2 ?_
    · intro kv hkv
      simp only [List.mem_cons, List.mem_singleton, List.not_mem_nil, or_false] at hkv
      rcases hkv with rfl | rfl <;> simp [greet_table, names_find]
    · rintro (h | ⟨i, hi, hc⟩)
      · exact absurd h (by decide)
      · have hi2 : i < 2 := hi
        interval_cases i
        · exact absurd hc (by simp [claimed_slot, last_keyword, greet_table, names_find])
        · exact absurd hc (by simp [claimed_slot, last_keyword, greet_table, names_find])
  · refine (bind_named_defaults greet_parser_t (const_fn 0) "greet"
      { args := [Value.str "bob"], kw := [] } greet_table rfl rfl rfl rfl ?_).2.2 ?_
    · intro kv hkv
      simp at hkv
    · rintro (h | ⟨i, hi, hc⟩)
      · exact absurd h (by decide)
      · have hi2 : i < 2 := hi
        interval_cases i
        · exact absurd hc (by simp [claimed_slot, last_keyword, greet_table])
        · exact absurd hc (by simp [claimed_slot, last_keyword, greet_table])

/-- C4 counterexample: `greet("a", "b", "c")` gives every slot a non-empty
content under the stated rule (both slots take positional values), yet binding
fails, because more positional values than parameters are supplied. -/
theorem bind_fails_with_every_slot_resolved :
    greet.arguments = some greet_table ∧
    ¬ (greet_parser_t.bind greet
          { args := [Value.str "a", Value.str "b", Value.str "c"], kw := [] } = .ok none ↔
        ∃ i, i < 2 ∧ claimed_slot greet_table
          { args := [Value.str "a", Value.str "b", Value.str "c"], kw := [] } i = none) := by
  refine ⟨rfl, ?_⟩
  intro h
  obtain ⟨i, hi, hc⟩ := h.mp rfl
  interval_cases i
  · exact absurd hc (by simp [claimed_slot, last_keyword, greet_table])
  · exact absurd hc (by simp [claimed_slot, last_keyword, greet_table])

/-! ## Capture parameters -/

/-- C5, evaluated on `g(py::args, int)`: `parse_arguments` and `parse_extras`
accept the signature (`args_pos = 0`, `normal_argc = 1`), and for the calls
`g(5)` and `g(5, 6)` the positional copy fills slot 0, the packed tuple then
overwrites slot 0, slot 1 stays empty and binding fails, so dispatch raises
`TypeError`. With the capture parameter declared last, `h(int, py::args)`
binds `h(5, 6, 7)` as the claim says. -/
theorem bind_fails_when_args_not_last :
    args_first_parser_t.parse_arguments = some { argc := 2, args_pos := 0, kwargs_pos := -1 } ∧
    args_first_parser_t.accepted = true ∧
    normal_argc_of args_first_parser_t.arguments_info = 1 ∧
    args_first_parser_t.bind_slots args_first { args := [Value.int 5], kw := [] } =
      .ok ([some (Value.tuple []), none, none], []) ∧
    args_first_parser_t.bind args_first { args := [Value.int 5], kw := [] } = .ok none ∧
    args_first_parser_t.bind_slots args_first { args := [Value.int 5, Value.int 6], kw := [] } =
      .ok ([some (Value.tuple [Value.int 6]), none, none], []) ∧
    args_first_parser_t.bind args_first { args := [Value.int 5, Value.int 6], kw := [] } =
      .ok none ∧
    function_record.operator_call args_first [] { args := [Value.int 5], kw := [] } =
      .ok (Outcome.TypeError "no matching function found",
        [Event.attempt 0 false, Event.attempt 0 true]) ∧
    args_last_parser_t.bind args_last
        { args := [Value.int 5, Value.int 6, Value.int 7], kw := [] } =
      .ok (some [some (Value.int 5), some (Value.tuple [Value.int 6, Value.int 7])]) :=
  ⟨rfl, rfl, rfl, rfl, rfl, rfl, rfl, rfl, rfl⟩

/-! ## Plain signatures: exact arity -/

/-- Slot filling for a signature with no capture parameter and no `arg`
annotation: the leading slots take the positional values, no record field is
read, and every keyword pair is left over. -/
theorem bind_slots_plain (P : template_parser_t) (record : function_record) (view : ArgsView)
    (hargs : P.arguments_info.args_pos = -1) (hkwargs : P.arguments_info.kwargs_pos = -1)
    (hnamed : P.extras_info.named_argc = 0) :
    P.bind_slots record view =
      .ok (memcpy (List.replicate (P.Args.length + 1) none) (view.args.map some)
        (min view.args.length P.Args.length), view.kw) := by
  have hnorm := normal_argc_no_capture P hargs hkwargs
  have hargc := arguments_info_argc_toNat P
  have hmin : (min (view.args.length : Int) (P.Args.length : Int)).toNat =
      min view.args.length P.Args.length := by
    omega
  simp only [template_parser_t.bind_slots, template_parser_t.load_defaults,
    template_parser_t.match_keywords, template_parser_t.load_positional,
    template_parser_t.pack_capture, hnamed, lt_self_iff_false, if_false, hargs, hkwargs, hnorm,
    hargc, hmin, ne_eq, not_true_eq_false]

theorem take_memcpy_all (stack : List handle) (xs : List Value) (n : Nat)
    (hn : xs.length = n) :
    (memcpy stack (xs.map some) (min xs.length n)).take n = xs.map some := by
  subst hn
  simp [memcpy]

/-- C7: for a signature with no capture parameter and no named-argument
metadata, the binding stage succeeds exactly when the call supplies `argc`
positional values and no keyword pair, and then binds the positional values in
order; a call with more positional values makes the wrapper return the null
handle with no native invocation, for either convert flag; a call with fewer
values is rejected with the first unfilled slot empty. -/
theorem bind_plain_exact_arity (P : template_parser_t) (record : function_record)
    (view : ArgsView)
    (hargs : P.arguments_info.args_pos = -1) (hkwargs : P.arguments_info.kwargs_pos = -1)
    (hnamed : P.extras_info.named_argc = 0) :
    ((∃ stack, P.bind record view = .ok (some stack)) ↔
      (view.args.length = P.Args.length ∧ view.kw = [])) ∧
    (view.args.length = P.Args.length ∧ view.kw = [] →
      P.bind record view = .ok (some (view.args.map some))) ∧
    (¬ (view.args.length = P.Args.length ∧ view.kw = []) → P.bind record view = .ok none) ∧
    (P.Args.length < view.args.length →
      ∀ convert, P.wrapper record view convert = .ok (none, [])) ∧
    (view.args.length < P.Args.length →
      ∃ stack rest, P.bind_slots record view = .ok (stack, rest) ∧
        stack[view.args.length]? = some none) := by
  have hnorm := normal_argc_no_capture P hargs hkwargs
  have hargc := arguments_info_argc_toNat P
  have hslots := bind_slots_plain P record view hargs hkwargs hnamed
  have hbig : P.Args.length < view.args.length → P.bind record view = .ok none := by
    intro h
    unfold template_parser_t.bind
    have hg : (view.args.length : Int) > (P.Args.length : Int) := by exact_mod_cast h
    simp only [hargs, hnorm, hg, and_self, if_true]
  have hkw : view.kw ≠ [] → P.bind record view = .ok none := by
    intro h
    unfold template_parser_t.bind
    split
    · rfl
    · simp only [hslots]
      have : view.kw.isEmpty = false := by
        cases hv : view.kw with
        | nil => exact absurd hv h
        | cons _ _ => rfl
      simp [this]
  have hsmall : view.args.length < P.Args.length → P.bind record view = .ok none := by
    intro h
    unfold template_parser_t.bind
    split
    · rfl
    · simp only [hslots, hargc]
      split
      · rfl
      · have hany : ((memcpy (List.replicate (P.Args.length + 1) none) (view.args.map some)
            (min view.args.length P.Args.length)).take P.Args.length).any Option.isNone = true := by
          rw [List.any_eq_true]
          refine ⟨none, ?_, rfl⟩
          rw [List.mem_iff_getElem?]
          refine ⟨view.args.length, ?_⟩
          rw [List.getElem?_take_of_lt h, memcpy_getElem? _ _ _ (by simp)]
          simp only [Nat.min_eq_left (Nat.le_of_lt h), lt_self_iff_false, if_false]
          rw [List.getElem?_replicate, if_pos (by omega)]
        simp [hany]
  have hexact : view.args.length = P.Args.length ∧ view.kw = [] →
      P.bind record view = .ok (some (view.args.map some)) := by
    rintro ⟨hlen, hk⟩
    unfold template_parser_t.bind
    have hg : ¬ (view.args.length : Int) > (P.Args.length : Int) := by
      have : (view.args.length : Int) = (P.Args.length : Int) := by exact_mod_cast hlen
      omega
    simp only [hargs, hnorm, hg, and_false, if_false, hslots, hk, hargc,
      take_memcpy_all _ _ _ hlen, List.isEmpty_nil, not_true_eq_false]
    simp
  have hother : ¬ (view.args.length = P.Args.length ∧ view.kw = []) →
      P.bind record view = .ok none := by
    intro h
    by_cases hk : view.kw = []
    · rcases Nat.lt_trichotomy view.args.length P.Args.length with h1 | h1 | h1
      · exact hsmall h1
      · exact absurd ⟨h1, hk⟩ h
      · exact hbig h1
    · exact hkw hk
  refine ⟨?_, hexact, hother, ?_, ?_⟩
  · constructor
    · rintro ⟨stack, hs⟩
      by_contra hne
      rw [hother hne] at hs
      simp at hs
    · intro h
      exact ⟨_, hexact h⟩
  · intro h convert
    unfold template_parser_t.wrapper
    rw [hbig h]
  · intro h
    refine ⟨_, _, hslots, ?_⟩
    rw [memcpy_getElem? _ _ _ (by simp)]
    simp only [Nat.min_eq_left (Nat.le_of_lt h), lt_self_iff_false, if_false]
    rw [List.getElem?_replicate, if_pos (by omega)]

/-- Witness for C7 on `add(int, int)`: two positional values bind, and three
positional values make the wrapper return the null handle in both passes. -/
theorem bind_plain_exact_arity_witness :
    (sample_instantiation [] [int_caster, int_caster]).bind add_int
        { args := [Value.int 1, Value.int 2], kw := [] } =
      .ok (some [some (Value.int 1), some (Value.int 2)]) ∧
    (∀ convert, (sample_instantiation [] [int_caster, int_caster]).wrapper add_int
        { args := [Value.int 1, Value.int 2, Value.int 3], kw := [] } convert = .ok (none, [])) :=
  ⟨(bind_plain_exact_arity (sample_instantiation [] [int_caster, int_caster]) add_int
      { args := [Value.int 1, Value.int 2], kw := [] } rfl rfl rfl).2.1 ⟨rfl, rfl⟩,
    (bind_plain_exact_arity (sample_instantiation [] [int_caster, int_caster]) add_int
      { args := [Value.int 1, Value.int 2, Value.int 3], kw := [] } rfl rfl rfl).2.2.2.1
      (by decide)⟩

/-! ## Dispatch exhaustion -/

/-- The member `append` links `record` after the last record of the chain of
`this` and leaves every record before it in place. -/
theorem append_eq (self : function_record) (next record : List function_record) :
    function_record.append self next record = (self :: next) ++ record := by
  induction next generalizing self with
  | nil => rfl
  | cons p rest ih =>
    rw [function_record.append, ih]
    rfl

/-- C9: registering with the prepend marker under a name that already has a
chain of `N` records (any `N`, in particular `N >= 1`) puts the new record at
the head and keeps the previous records, in their order, behind it; the chain
has `N + 1` records and other names are untouched. -/
theorem bind_function_prepend (obj : Attrs) (name : String) (P : template_parser_t)
    (fn : Native) (chain : List function_record)
    (hchain : obj name = some chain)
    (hprepend : types_count_v Extra.type ExtraType.prepend P.Extras ≠ 0) :
    ∃ obj1, bind_function obj name P fn = .ok obj1 ∧
      obj1 name = some (function_record.ctor P fn name :: chain) ∧
      (function_record.ctor P fn name :: chain).length = chain.length + 1 ∧
      ∀ other, other ≠ name → obj1 other = obj other := by
  refine ⟨Function.update obj name (some (function_record.ctor P fn name :: chain)), ?_, ?_, ?_,
    ?_⟩
  · simp [bind_function, hchain, hprepend, append_eq]
  · simp
  · simp
  · intro other hne
    simp [Function.update, hne]

/-- Witness for C9: `add(float, float)` registered with the prepend marker on
an object that already binds `add(int, int)`. -/
theorem bind_function_prepend_witness :
    ∃ obj1, bind_function module_with_add "add" add_float_prepend_parser_t (const_fn 2) = .ok obj1 ∧
      obj1 "add" =
        some (function_record.ctor add_float_prepend_parser_t (const_fn 2) "add" :: [add_int]) ∧
      (function_record.ctor add_float_prepend_parser_t (const_fn 2) "add" :: [add_int]).length =
        [add_int].length + 1 ∧
      ∀ other, other ≠ "add" → obj1 other = module_with_add other :=
  bind_function_prepend module_with_add "add" add_float_prepend_parser_t (const_fn 2) [add_int]
    rfl (by decide)

/-- C10: registering without the prepend marker under a name that already has
a chain of at least one record keeps the previous records in their order and
puts the new record last, at position `N`, so that each walk reaches it after
all of them; the chain grows by one and other names are untouched. The member
`append` links the new chain after the last record and keeps every record
before it in place. -/
theorem bind_function_append (obj : Attrs) (name : String) (P : template_parser_t)
    (fn : Native) (chain : List function_record)
    (hchain : obj name = some chain) (hcount : 1 ≤ chain.length)
    (hprepend : types_count_v Extra.type ExtraType.prepend P.Extras = 0) :
    (∃ obj1, bind_function obj name P fn = .ok obj1 ∧
      obj1 name = some (chain ++ [function_record.ctor P fn name]) ∧
      (chain ++ [function_record.ctor P fn name]).length = chain.length + 1 ∧
      (chain ++ [function_record.ctor P fn name])[chain.length]? =
        some (function_record.ctor P fn name) ∧
      ∀ other, other ≠ name → obj1 other = obj other) ∧
    (∀ (self : function_record) (next record : List function_record),
      function_record.append self next record = (self :: next) ++ record) := by
  refine ⟨?_, append_eq⟩
  cases chain with
  | nil => simp at hcount
  | cons last next =>
    refine ⟨Function.update obj name
      (some ((last :: next) ++ [function_record.ctor P fn name])), ?_, ?_, ?_, ?_, ?_⟩
    · simp [bind_function, hchain, hprepend, append_eq]
    · simp
    · simp
    · simp
    · intro other hne
      simp [Function.update, hne]

/-- Witness for C10: `add(float, float)` registered without the prepend marker
on an object that already binds `add(int, int)`. -/
theorem bind_function_append_witness :
    ∃ obj1, bind_function module_with_add "add"
        (sample_instantiation [] [float_caster, float_caster]) (const_fn 2) = .ok obj1 ∧
      obj1 "add" = some [add_int, add_float] :=
  match (bind_function_append module_with_add "add"
      (sample_instantiation [] [float_caster, float_caster]) (const_fn 2) [add_int]
      rfl (by decide) (by decide)).1 with
  | ⟨obj1, h1, h2, _⟩ => ⟨obj1, h1, h2⟩

/-! ## The keyword capture parameter -/

theorem type_index_v_ge {α β : Type} [DecidableEq β] (key : α → β) (t : β) (l : List α) :
    -1 ≤ type_index_v key t l := by
  induction l with
  | nil => simp [type_index_v]
  | cons a rest ih =>
    simp only [type_index_v]
    split
    · omega
    · split <;> omega

theorem type_index_v_count {α β : Type} [DecidableEq β] (key : α → β) (t : β) (l : List α)
    (h : type_index_v key t l ≠ -1) : 1 ≤ types_count_v key t l := by
  induction l with
  | nil => simp [type_index_v] at h
  | cons a rest ih =>
    simp only [types_count_v]
    by_cases ha : key a = t
    · simp [ha]
    · simp only [type_index_v, ha, if_false] at h
      have : type_index_v key t rest ≠ -1 := by
        intro hr
        simp [hr] at h
      have := ih this
      omega

/-- An accepted parameter list with a `py::kwargs` has it last, and a
`py::args`, if any, right before it. -/
theorem parse_arguments_kwargs_last (P : template_parser_t)
    (h : P.parse_arguments.isSome = true) (hkwargs : P.arguments_info.kwargs_pos ≠ -1) :
    P.arguments_info.kwargs_pos = (P.Args.length : Int) - 1 ∧
      (P.arguments_info.args_pos ≠ -1 →
        P.arguments_info.args_pos = (P.Args.length : Int) - 2) := by
  have hk1 := type_index_v_count Param.kind ParamKind.kwargs P.Args hkwargs
  unfold template_parser_t.parse_arguments at h
  simp only at h
  split at h
  · simp at h
  · split at h
    · simp at h
    · rename_i hc1 hc2
      simp only [not_not] at hc1 hc2
      have hkc : types_count_v Param.kind ParamKind.kwargs P.Args = 1 := by omega
      split at h
      · simp at h
      · rename_i hc3
        simp only [hkc, true_and, not_not] at hc3
        split at h
        · simp at h
        · rename_i hc4
          simp only [hkc, true_and, not_and, not_not] at hc4
          refine ⟨hc3, ?_⟩
          intro ha
          have ha1 := type_index_v_count Param.kind ParamKind.args P.Args ha
          have hac : types_count_v Param.kind ParamKind.args P.Args = 1 := by omega
          have := hc4 hac
          simp only [template_parser_t.arguments_info]
          omega

theorem resolve_keywords_split (names : List (StrName × Nat)) :
    ∀ (kw : List (StrName × Value)) (stack : List handle),
      (∀ k j, names_find names k = some j → j < stack.length) →
      ∃ stack1, resolve_keywords names stack kw = .ok (stack1, kw.dropWhile (declared names)) ∧
        stack1.length = stack.length ∧
        ∀ i, i < stack.length →
          stack1[i]? = match last_keyword names i (kw.takeWhile (declared names)) with
            | some value => some (some value)
            | none => stack[i]? := by
  intro kw
  induction kw with
  | nil =>
    intro stack _
    exact ⟨stack, rfl, rfl, fun i _ => rfl⟩
  | cons kv rest ih =>
    intro stack h
    obtain ⟨key, value⟩ := kv
    cases hfind : names_find names key with
    | none =>
      refine ⟨stack, ?_, rfl, ?_⟩
      · simp [resolve_keywords, hfind, List.dropWhile, declared]
      · intro i _
        simp [List.takeWhile, declared, hfind, last_keyword]
    | some slot =>
      have hslot := h key slot hfind
      have hbound : ∀ k j, names_find names k = some j →
          j < (stack.set slot (some value)).length := by
        intro k j hk
        simpa using h k j hk
      obtain ⟨stack1, hres, hlen, hget⟩ := ih (stack.set slot (some value)) hbound
      refine ⟨stack1, ?_, ?_, ?_⟩
      · simp only [resolve_keywords, hfind, hslot, if_true]
        simpa [List.dropWhile, declared, hfind] using hres
      · simpa using hlen
      · intro i hi
        rw [hget i (by simpa using hi)]
        have htw : List.takeWhile (declared names) ((key, value) :: rest) =
            (key, value) :: List.takeWhile (declared names) rest := by
          simp [List.takeWhile, declared, hfind]
        rw [htw]
        simp only [last_keyword]
        cases hlast : last_keyword names i (List.takeWhile (declared names) rest) with
        | some later => rfl
        | none =>
          simp only [hfind, Option.some.injEq]
          by_cases hsi : slot = i
          · subst hsi
            simp [List.getElem?_set, hslot]
          · simp [List.getElem?_set, hsi]

theorem last_keyword_names (names : List (StrName × Nat)) (i : Nat) :
    ∀ (kw : List (StrName × Value)) (value : Value), last_keyword names i kw = some value →
      ∃ k, names_find names k = some i := by
  intro kw
  induction kw with
  | nil => intro value h; simp [last_keyword] at h
  | cons kv rest ih =>
    intro value h
    obtain ⟨key, v⟩ := kv
    simp only [last_keyword] at h
    cases hl : last_keyword names i rest with
    | some later => exact ih later hl
    | none =>
      rw [hl] at h
      simp only at h
      split at h
      · rename_i hf; exact ⟨key, hf⟩
      · simp at h

theorem dict_setitem_fresh (items : List (StrName × Value)) (k : StrName) (v : Value)
    (h : ∀ e ∈ items, e.1 ≠ k) : dict_setitem items k v = items ++ [(k, v)] := by
  induction items with
  | nil => rfl
  | cons e rest ih =>
    obtain ⟨k0, v0⟩ := e
    have hk : k0 ≠ k := h (k0, v0) (List.mem_cons_self _ _)
    simp only [dict_setitem, hk, if_false, List.cons_append]
    rw [ih (fun e he => h e (List.mem_cons_of_mem _ he))]

/-- Packing pairs with pairwise distinct names, none of them in the dict yet,
adds the pairs at the end in supplied order. -/
theorem pack_kwargs_nodup :
    ∀ (rest acc : List (StrName × Value)), (rest.map Prod.fst).Nodup →
      (∀ kv ∈ rest, ∀ e ∈ acc, e.1 ≠ kv.1) → pack_kwargs acc rest = acc ++ rest := by
  intro rest
  induction rest with
  | nil => intro acc _ _; simp [pack_kwargs]
  | cons kv rest ih =>
    intro acc hnd hfresh
    obtain ⟨key, value⟩ := kv
    simp only [List.map_cons, List.nodup_cons, List.mem_map, not_exists, not_and] at hnd
    simp only [pack_kwargs]
    rw [dict_setitem_fresh acc key value (fun e he => hfresh (key, value) (List.mem_cons_self _ _) e he)]
    rw [ih (acc ++ [(key, value)]) hnd.2]
    · simp
    · intro kv1 hkv1 e he
      rcases List.mem_append.mp he with he | he
      · exact hfresh kv1 (List.mem_cons_of_mem _ hkv1) e he
      · simp only [List.mem_singleton] at he
        subst he
        intro heq
        exact hnd.1 kv1 hkv1 heq.symm

theorem declared_nil_dropWhile (kw : List (StrName × Value)) :
    kw.dropWhile (declared []) = kw ∧ kw.takeWhile (declared []) = [] := by
  cases kw with
  | nil => exact ⟨rfl, rfl⟩
  | cons kv rest => simp [List.dropWhile, List.takeWhile, declared, names_find]

theorem dropWhile_eq_filter_not {α : Type} (p : α → Bool) :
    ∀ l : List α, (∀ a ∈ l.dropWhile p, p a = false) →
      l.dropWhile p = l.filter (fun a => !p a) := by
  intro l
  induction l with
  | nil => intro _; rfl
  | cons a rest ih =>
    intro h
    by_cases hp : p a = true
    · simp only [List.dropWhile, hp, List.filter, Bool.not_true] at h ⊢
      exact ih h
    · have hp1 : p a = false := by simpa using hp
      simp only [List.dropWhile, hp1] at h ⊢
      symm
      rw [List.filter_eq_self]
      intro b hb
      simp [h b hb]

/-- The stack after the default pre-fill and the positional stage of an
accepted signature with a `py::kwargs`, on the record built for it, has
`argc + 1` slots. -/
theorem load_stages_length (P : template_parser_t) (f : Native) (name : String)
    (view : ArgsView) (haccepted : P.accepted = true)
    (hkwargs : P.arguments_info.kwargs_pos ≠ -1) :
    ∃ stack1, P.load_defaults (function_record.ctor P f name) = .ok stack1 ∧
      (P.load_positional stack1 view).length = P.Args.length + 1 ∧
      0 ≤ normal_argc_of P.arguments_info ∧
      normal_argc_of P.arguments_info ≤ (P.Args.length : Int) - 1 ∧
      P.arguments_info.kwargs_pos = (P.Args.length : Int) - 1 := by
  simp only [template_parser_t.accepted, Bool.and_eq_true] at haccepted
  obtain ⟨hkpos, hapos⟩ := parse_arguments_kwargs_last P haccepted.1 hkwargs
  have hkge := type_index_v_ge Param.kind ParamKind.kwargs P.Args
  have hage := type_index_v_ge Param.kind ParamKind.args P.Args
  have hk0 : (0 : Int) ≤ P.arguments_info.kwargs_pos := by
    have : P.arguments_info.kwargs_pos = type_index_v Param.kind ParamKind.kwargs P.Args := rfl
    omega
  have hargc : P.arguments_info.argc = (P.Args.length : Int) := rfl
  have hnorm : 0 ≤ normal_argc_of P.arguments_info ∧
      normal_argc_of P.arguments_info ≤ (P.Args.length : Int) - 1 := by
    unfold normal_argc_of
    rw [if_pos hkwargs, hargc]
    by_cases ha : P.arguments_info.args_pos ≠ -1
    · have h2 := hapos ha
      have : P.arguments_info.args_pos = type_index_v Param.kind ParamKind.args P.Args := rfl
      rw [if_pos ha]
      omega
    · rw [if_neg ha]
      omega
  have hdef : ∃ stack1, P.load_defaults (function_record.ctor P f name) = .ok stack1 ∧
      stack1.length = P.Args.length + 1 := by
    unfold template_parser_t.load_defaults
    rw [ctor_arguments, arguments_info_argc_toNat]
    by_cases hn : 0 < P.extras_info.named_argc
    · have hlen : (P.Extras.foldl add_arguments { names := [], defaults := [] }).defaults.length ≤
          P.Args.length + 1 := by
        rw [add_arguments_fold_defaults_length]
        have hc : (types_count_v Extra.type ExtraType.arg P.Extras : Int) =
            P.extras_info.named_argc := rfl
        rcases parse_extras_named_argc P haccepted.2 with h0 | h1
        · omega
        · simp only [List.length_nil, Nat.zero_add]
          omega
      simp only [hn, if_true, hlen]
      exact ⟨_, rfl, by rw [memcpy_length _ _ _ (le_refl _) (by simpa using hlen)]; simp⟩
    · simp only [hn, if_false]
      exact ⟨_, rfl, by simp⟩
  obtain ⟨stack1, h1, hl1⟩ := hdef
  refine ⟨stack1, h1, ?_, hnorm.1, hnorm.2, hkpos⟩
  unfold template_parser_t.load_positional
  have hsize2 : (min (view.args.length : Int) (normal_argc_of P.arguments_info)).toNat ≤
      stack1.length := by omega
  simp only
  split
  · rw [List.length_set, memcpy_length _ _ _ (by simp) hsize2, hl1]
  · rw [memcpy_length _ _ _ (by simp) hsize2, hl1]

/-- C6 (amended): for an accepted signature with a `py::kwargs` parameter and
every call, slot filling never leaves a keyword pair over, and the keyword
pairs are split at the first pair whose name is not a declared named
parameter: the dict placed in the capture slot is packed from exactly the
pairs from that pair on, declared names included, in supplied order; every
pair before it is placed in its named slot (the last pair naming a slot wins)
and not in the dict. When the names from the split on are pairwise distinct
the dict is exactly those pairs, and when no declared name follows an
undeclared one it is exactly the pairs with undeclared names. -/
theorem bind_slots_kwargs_split (P : template_parser_t) (f : Native) (name : String)
    (view : ArgsView) (haccepted : P.accepted = true)
    (hkwargs : P.arguments_info.kwargs_pos ≠ -1) :
    ∃ stack, P.bind_slots (function_record.ctor P f name) view = .ok (stack, []) ∧
      stack[P.arguments_info.kwargs_pos.toNat]? =
        some (some (Value.dict (pack_kwargs []
          (view.kw.dropWhile (declared (function_record.ctor P f name).names))))) ∧
      (∀ i value,
        last_keyword (function_record.ctor P f name).names i
          (view.kw.takeWhile (declared (function_record.ctor P f name).names)) = some value →
        stack[i]? = some (some value) ∧ i ≠ P.arguments_info.kwargs_pos.toNat) ∧
      (((view.kw.dropWhile (declared (function_record.ctor P f name).names)).map
          Prod.fst).Nodup →
        pack_kwargs [] (view.kw.dropWhile (declared (function_record.ctor P f name).names)) =
          view.kw.dropWhile (declared (function_record.ctor P f name).names)) ∧
      ((∀ kv ∈ view.kw.dropWhile (declared (function_record.ctor P f name).names),
          declared (function_record.ctor P f name).names kv = false) →
        view.kw.dropWhile (declared (function_record.ctor P f name).names) =
          claimed_kwargs (function_record.ctor P f name).names view.kw) := by
  obtain ⟨stack1, hdef, hlen3, hnorm0, hnormle, hkpos⟩ :=
    load_stages_length P f name view haccepted hkwargs
  have hacc := haccepted
  simp only [template_parser_t.accepted, Bool.and_eq_true] at hacc
  have hkn : P.arguments_info.kwargs_pos.toNat < P.Args.length + 1 := by omega
  -- the keyword stage
  have hmatch : ∃ stack4,
      P.match_keywords (function_record.ctor P f name) (P.load_positional stack1 view) view =
        .ok (stack4, view.kw.dropWhile (declared (function_record.ctor P f name).names)) ∧
      stack4.length = P.Args.length + 1 ∧
      ∀ i value,
        last_keyword (function_record.ctor P f name).names i
          (view.kw.takeWhile (declared (function_record.ctor P f name).names)) = some value →
        stack4[i]? = some (some value) ∧ i ≠ P.arguments_info.kwargs_pos.toNat := by
    unfold template_parser_t.match_keywords function_record.names
    rw [ctor_arguments]
    by_cases hn : 0 < P.extras_info.named_argc
    · simp only [hn, if_true]
      have hc : (types_count_v Extra.type ExtraType.arg P.Extras : Int) =
          P.extras_info.named_argc := rfl
      have hdl : ((P.Extras.foldl add_arguments { names := [], defaults := [] }).defaults.length :
          Int) ≤ (P.Args.length : Int) - 1 := by
        rw [add_arguments_fold_defaults_length]
        rcases parse_extras_named_argc P hacc.2 with h0 | h1
        · omega
        · simp only [List.length_nil, Nat.zero_add]
          omega
      have hbound := add_arguments_fold_names_bound P.Extras { names := [], defaults := [] }
        (by intro k i h; simp [names_find] at h)
      obtain ⟨stack4, hres, hlen4, hget⟩ := resolve_keywords_split
        (P.Extras.foldl add_arguments { names := [], defaults := [] }).names view.kw
        (P.load_positional stack1 view)
        (by intro k j hk; have := hbound k j hk; omega)
      refine ⟨stack4, hres, by rw [hlen4, hlen3], ?_⟩
      intro i value hlast
      obtain ⟨k, hk⟩ := last_keyword_names _ i _ value hlast
      have hi := hbound k i hk
      refine ⟨?_, by omega⟩
      rw [hget i (by omega), hlast]
    · simp only [hn, if_false]
      obtain ⟨hd, ht⟩ := declared_nil_dropWhile view.kw
      refine ⟨_, by rw [hd], hlen3, ?_⟩
      intro i value hlast
      rw [ht] at hlast
      simp [last_keyword] at hlast
  obtain ⟨stack4, hm, hlen4, hslots⟩ := hmatch
  refine ⟨stack4.set P.arguments_info.kwargs_pos.toNat
    (some (Value.dict (pack_kwargs []
      (view.kw.dropWhile (declared (function_record.ctor P f name).names))))), ?_, ?_, ?_, ?_, ?_⟩
  · simp only [template_parser_t.bind_slots, hdef, hm, template_parser_t.pack_capture, hkwargs,
      ne_eq, not_false_eq_true, if_true]
  · rw [List.getElem?_set_self (by omega)]
  · intro i value hlast
    obtain ⟨h1, h2⟩ := hslots i value hlast
    refine ⟨?_, h2⟩
    rw [List.getElem?_set_ne (Ne.symm h2)]
    exact h1
  · intro hnd
    have := pack_kwargs_nodup _ [] hnd (by intro kv _ e he; simp at he)
    simpa using this
  · intro hall
    exact dropWhile_eq_filter_not _ _ hall

/-- Witness for C6 (amended) on `h(int a, py::kwargs)`: the call
`h(3, a = 5, z = 7, y = 6)` places 5 in the slot of `a` and packs `z` and `y`,
in this order, into the dict of the capture slot. -/
theorem bind_slots_kwargs_split_witness :
    ∃ stack, kwargs_parser_t.bind_slots kwargs_record
        { args := [Value.int 3], kw := [(1, Value.int 5), (9, Value.int 7), (8, Value.int 6)] } =
          .ok (stack, []) ∧
      stack[1]? = some (some (Value.dict [(9, Value.int 7), (8, Value.int 6)])) ∧
      stack[0]? = some (some (Value.int 5)) :=
  match bind_slots_kwargs_split kwargs_parser_t (const_fn 9) "h"
      { args := [Value.int 3], kw := [(1, Value.int 5), (9, Value.int 7), (8, Value.int 6)] }
      rfl (by decide) with
  | ⟨stack, h1, h2, h3, _, _⟩ => ⟨stack, h1, h2, (h3 0 (Value.int 5) rfl).1⟩

/-- C6 counterexample on `h(int a, py::kwargs)`: in the call `h(z = 7, a = 5)`
the pair `a = 5` follows the undeclared name `z`, so it is packed into the dict
and the slot of `a` stays empty, while the claim puts 5 in the slot of `a` and
only `z = 7` in the dict. -/
theorem kwargs_takes_declared_name_after_undeclared :
    names_find kwargs_record.names 1 = some 0 ∧
    claimed_kwargs kwargs_record.names [(9, Value.int 7), (1, Value.int 5)] =
      [(9, Value.int 7)] ∧
    kwargs_parser_t.bind_slots kwargs_record
        { args := [], kw := [(9, Value.int 7), (1, Value.int 5)] } =
      .ok ([none, some (Value.dict [(9, Value.int 7), (1, Value.int 5)]), none], []) ∧
    ¬ ∃ stack rest, kwargs_parser_t.bind_slots kwargs_record
          { args := [], kw := [(9, Value.int 7), (1, Value.int 5)] } = .ok (stack, rest) ∧
        stack[1]? = some (some (Value.dict
          (claimed_kwargs kwargs_record.names [(9, Value.int 7), (1, Value.int 5)]))) ∧
        stack[0]? = some (some (Value.int 5)) := by
  refine ⟨rfl, rfl, rfl, ?_⟩
  rintro ⟨stack, rest, h, _, h0⟩
  have heval : kwargs_parser_t.bind_slots kwargs_record
      { args := [], kw := [(9, Value.int 7), (1, Value.int 5)] } =
        .ok ([none, some (Value.dict [(9, Value.int 7), (1, Value.int 5)]), none], []) := rfl
  rw [heval] at h
  simp only [Except.ok.injEq, Prod.mk.injEq] at h
  rw [← h.1] at h0
  simp at h0

/-! ## Property setters -/

/-- C11: for every setter shape, instance and written value: if the load of
the value with conversion enabled fails, `setter_wrapper` raises `TypeError`,
leaves the instance as it was and performs no assignment or accessor call; if
the load succeeds, the converted value is assigned or passed to the accessor
exactly once and `None` is returned. -/
theorem setter_wrapper_all_or_nothing (setter : Setter) (self : Instance) (arg : Value) :
    (setter.caster.load arg true = none →
      setter_wrapper setter self arg =
        (Outcome.TypeError "Unexpected argument type", self, [])) ∧
    (∀ value, setter.caster.load arg true = some value →
      setter_wrapper setter self arg =
        (Outcome.returned Value.none, (setter.apply self value).1, (setter.apply self value).2) ∧
      (setter.apply self value).2.length = 1) := by
  cases setter <;>
    exact ⟨fun h => by simp only [Setter.caster] at h; simp [setter_wrapper, h],
      fun value h => by
        simp only [Setter.caster] at h
        simp [setter_wrapper, h, Setter.apply]⟩

/-- Witness for C11 on a data member of type `float`: writing the string
"x" raises `TypeError` and leaves the member, writing the int 2 stores the
converted float. -/
theorem setter_wrapper_all_or_nothing_witness :
    setter_wrapper (Setter.member_object 0 float_caster) [Value.float 1 0] (Value.str "x") =
      (Outcome.TypeError "Unexpected argument type", [Value.float 1 0], []) ∧
    setter_wrapper (Setter.member_object 0 float_caster) [Value.float 1 0] (Value.int 2) =
      (Outcome.returned Value.none, [Value.float 2 0],
        [SetterEvent.assign 0 (Value.float 2 0)]) :=
  ⟨(setter_wrapper_all_or_nothing (Setter.member_object 0 float_caster) [Value.float 1 0]
      (Value.str "x")).1 rfl,
    ((setter_wrapper_all_or_nothing (Setter.member_object 0 float_caster) [Value.float 1 0]
      (Value.int 2)).2 (Value.float 2 0) rfl).1⟩

/-! ## Conversion and invocation -/

/-- The fold of loads succeeds with `values` exactly when every slot loads as
its parameter type, leaving `values`. -/
theorem load_all_eq_some_iff (convert : Bool) :
    ∀ (Args : List Param) (stack : List handle) (values : List Value),
      load_all Args stack convert = some values ↔ loads_as convert Args stack values := by
  intro Args
  induction Args with
  | nil =>
    intro stack values
    cases values <;> simp [load_all, loads_as]
  | cons T Ts ih =>
    intro stack values
    cases stack with
    | nil => simp [load_all, loads_as]
    | cons slot slots =>
      cases slot with
      | none => simp [load_all, loads_as]
      | some v =>
        cases hload : T.load v convert with
        | none =>
          cases values <;> simp [load_all, loads_as, hload]
        | some x =>
          cases hrest : load_all Ts slots convert with
          | none =>
            cases values with
            | nil => simp [load_all, loads_as, hload, hrest]
            | cons y ys =>
              have := (ih slots ys).not.mp (by simp [hrest])
              simp [load_all, loads_as, hload, hrest, this]
          | some xs =>
            cases values with
            | nil => simp [load_all, loads_as, hload, hrest]
            | cons y ys =>
              simp only [load_all, hload, hrest, Option.some.injEq, List.cons.injEq, loads_as]
              constructor
              · rintro ⟨h1, h2⟩
                exact ⟨h1, (ih slots ys).mp (by rw [hrest, h2])⟩
              · rintro ⟨h1, h2⟩
                have := (ih slots ys).mpr h2
                rw [hrest] at this
                exact ⟨h1, Option.some.inj this⟩

/-- C16: for every record passed to a wrapper and every call whose binding
stage succeeds with the slots `stack`, the native callable is invoked exactly
when every slot loads as its parameter type under the convert flag of the
call; it is then invoked once, on the loaded values and under the policy of the
record passed, and when some load fails the wrapper returns the null handle
and records no invocation. -/
theorem wrapper_invokes_iff_loads (P : template_parser_t) (record : function_record)
    (view : ArgsView) (convert : Bool) (stack : List handle) (fn : Native)
    (hbind : P.bind record view = .ok (some stack)) (hfn : record._as P = .ok fn) :
    (∀ values, loads_as convert P.Args stack values →
      P.wrapper record view convert =
        .ok (invoke P fn values record.policy, [Event.invoke fn values record.policy])) ∧
    ((¬ ∃ values, loads_as convert P.Args stack values) →
      P.wrapper record view convert = .ok (none, [])) ∧
    ((∃ result events, P.wrapper record view convert = .ok (result, events) ∧
        invocations events ≠ []) ↔
      ∃ values, loads_as convert P.Args stack values) := by
  have hyes : ∀ values, loads_as convert P.Args stack values →
      P.wrapper record view convert =
        .ok (invoke P fn values record.policy, [Event.invoke fn values record.policy]) := by
    intro values hl
    have hload := (load_all_eq_some_iff convert P.Args stack values).mpr hl
    unfold template_parser_t.wrapper
    simp only [hbind, hload, hfn]
  have hno : (¬ ∃ values, loads_as convert P.Args stack values) →
      P.wrapper record view convert = .ok (none, []) := by
    intro hn
    have hload : load_all P.Args stack convert = none := by
      cases hl : load_all P.Args stack convert with
      | none => rfl
      | some values => exact absurd ⟨values, (load_all_eq_some_iff _ _ _ _).mp hl⟩ hn
    unfold template_parser_t.wrapper
    simp only [hbind, hload]
  refine ⟨hyes, hno, ?_⟩
  constructor
  · rintro ⟨result, events, hw, hinv⟩
    by_contra hn
    rw [hno hn] at hw
    simp only [Except.ok.injEq, Prod.mk.injEq] at hw
    rw [← hw.2] at hinv
    exact hinv rfl
  · rintro ⟨values, hl⟩
    exact ⟨_, _, hyes values hl, by simp [invocations]⟩

/-- Witness for C16 on `add(float, float)` called with an int and a float: in
the strict call the first load fails and nothing is invoked, in the converting
call both loads succeed and the callable is invoked on the converted values. -/
theorem wrapper_invokes_iff_loads_witness :
    (sample_instantiation [] [float_caster, float_caster]).wrapper add_float
        { args := [Value.int 1, Value.float 5 (-1)], kw := [] } false = .ok (none, []) ∧
    (sample_instantiation [] [float_caster, float_caster]).wrapper add_float
        { args := [Value.int 1, Value.float 5 (-1)], kw := [] } true =
      .ok (some (Value.tuple [Value.int 2, Value.int 0]),
        [Event.invoke (const_fn 2) [Value.float 1 0, Value.float 5 (-1)]
          return_value_policy.automatic]) :=
  ⟨(wrapper_invokes_iff_loads (sample_instantiation [] [float_caster, float_caster]) add_float
      { args := [Value.int 1, Value.float 5 (-1)], kw := [] } false
      [some (Value.int 1), some (Value.float 5 (-1))] (const_fn 2) rfl rfl).2.1
      (by
        rintro ⟨values, hl⟩
        match values, hl with
        | [], hl => exact hl
        | _ :: _, hl => exact absurd hl.1 (by simp [sample_instantiation, float_caster])),
    (wrapper_invokes_iff_loads (sample_instantiation [] [float_caster, float_caster]) add_float
      { args := [Value.int 1, Value.float 5 (-1)], kw := [] } true
      [some (Value.int 1), some (Value.float 5 (-1))] (const_fn 2) rfl rfl).1
      [Value.float 1 0, Value.float 5 (-1)] ⟨rfl, rfl, trivial⟩⟩

/-! ## Keyword matching -/

theorem types_count_arg_eq_length (extras : List Extra) :
    types_count_v Extra.type ExtraType.arg extras = (arg_entries extras).length := by
  induction extras with
  | nil => rfl
  | cons e rest ih =>
    cases e <;> simp [types_count_v, Extra.type, arg_entries, ih]
    omega

theorem add_arguments_fold_defaults (extras : List Extra) :
    ∀ acc : arguments_t, (extras.foldl add_arguments acc).defaults =
      acc.defaults ++ (arg_entries extras).map Prod.snd := by
  induction extras with
  | nil => intro acc; simp [arg_entries]
  | cons e rest ih =>
    intro acc
    rw [List.foldl_cons, ih]
    cases e <;> simp [add_arguments, arg_entries]

/-- A name that no later descriptor carries keeps its lookup result. -/
theorem add_arguments_fold_names_other (extras : List Extra) (k : StrName) :
    ∀ acc : arguments_t, (∀ e ∈ arg_entries extras, e.1 ≠ k) →
      names_find (extras.foldl add_arguments acc).names k = names_find acc.names k := by
  induction extras with
  | nil => intro acc _; rfl
  | cons e rest ih =>
    intro acc h
    rw [List.foldl_cons]
    cases e with
    | arg name default_ =>
      have hne : name ≠ k := h (name, default_) (by simp [arg_entries])
      rw [ih _ (fun e he => h e (by simp [arg_entries, he]))]
      simp [add_arguments, names_assign, names_find, hne]
    | _ =>
      rw [ih _ (fun e he => h e (by simpa [arg_entries] using he))]
      rfl

/-- With pairwise distinct names the name map sends the name of the `i`-th
descriptor to the index of its default. -/
theorem add_arguments_fold_names_index (extras : List Extra) :
    ∀ acc : arguments_t, ((arg_entries extras).map Prod.fst).Nodup →
      ∀ i entry, (arg_entries extras)[i]? = some entry →
        names_find (extras.foldl add_arguments acc).names entry.1 =
          some (acc.defaults.length + i) := by
  induction extras with
  | nil => intro acc _ i entry h; simp [arg_entries] at h
  | cons e rest ih =>
    intro acc hnd i entry h
    rw [List.foldl_cons]
    cases e with
    | arg name default_ =>
      simp only [arg_entries, List.map_cons, List.nodup_cons, List.mem_map, not_exists,
        not_and] at hnd
      cases i with
      | zero =>
        simp only [arg_entries, List.getElem?_cons_zero, Option.some.injEq] at h
        subst h
        rw [add_arguments_fold_names_other rest name _
          (fun e he heq => hnd.1 e he heq)]
        simp [add_arguments, names_assign, names_find]
      | succ j =>
        simp only [arg_entries, List.getElem?_cons_succ] at h
        rw [ih _ hnd.2 j entry h]
        simp [add_arguments]
        omega
    | _ =>
      exact ih _ (by simpa [arg_entries] using hnd) i entry (by simpa [arg_entries] using h)

/-- The member `initialize` creates the table exactly when an `arg` annotation
is present. -/
theorem initialize_record_arguments (P : template_parser_t) (record : function_record) :
    (P.initialize_record record).arguments =
      if 0 < P.extras_info.named_argc then
        some (P.Extras.foldl add_arguments { names := [], defaults := [] })
      else record.arguments := by
  unfold template_parser_t.initialize_record
  by_cases hn : 0 < P.extras_info.named_argc
  · simp only [hn, if_true]
  · simp only [hn, if_false]
    split <;> (try split) <;> rfl

/-- C18: when named-argument descriptors are supplied among the annotations,
however interleaved with other annotations, `initialize` builds a table whose
defaults are the defaults of the descriptors in declaration order and whose
name map, for pairwise distinct names, sends the name of the `i`-th descriptor
to `i`; when none is supplied it creates no table: the field keeps its value,
which is null in a record under construction. -/
theorem initialize_builds_table (P : template_parser_t) (record : function_record) :
    (arg_entries P.Extras ≠ [] →
      ∃ table, (P.initialize_record record).arguments = some table ∧
        table.defaults = (arg_entries P.Extras).map Prod.snd ∧
        (((arg_entries P.Extras).map Prod.fst).Nodup →
          ∀ i entry, (arg_entries P.Extras)[i]? = some entry →
            names_find table.names entry.1 = some i)) ∧
    (arg_entries P.Extras = [] →
      (P.initialize_record record).arguments = record.arguments ∧
      ∀ f name, (function_record.ctor P f name).arguments = none) := by
  have hc : P.extras_info.named_argc = ((arg_entries P.Extras).length : Int) := by
    simp [template_parser_t.extras_info, types_count_arg_eq_length]
  constructor
  · intro hne
    have hn : 0 < P.extras_info.named_argc := by
      rw [hc]
      have : 0 < (arg_entries P.Extras).length := List.length_pos.mpr hne
      exact_mod_cast this
    refine ⟨_, by rw [initialize_record_arguments, if_pos hn], ?_, ?_⟩
    · rw [add_arguments_fold_defaults]
      rfl
    · intro hnd i entry h
      have := add_arguments_fold_names_index P.Extras { names := [], defaults := [] } hnd i
        entry h
      simpa using this
  · intro hnil
    have hn : ¬ 0 < P.extras_info.named_argc := by
      rw [hc, hnil]
      simp
    refine ⟨by rw [initialize_record_arguments, if_neg hn], ?_⟩
    intro f name
    rw [ctor_arguments, if_neg hn]

/-- Witness for C18 on `k(int x, int y = 2)` registered with a documentation
string and a policy between the two descriptors: the defaults are in order and
the second name is sent to 1. -/
theorem initialize_builds_table_witness :
    ∃ table, (interleaved_parser_t.initialize_record add_int).arguments = some table ∧
      table.defaults = [none, some (Value.int 2)] ∧
      names_find table.names 6 = some 1 :=
  match (initialize_builds_table interleaved_parser_t add_int).1
      (fun hnil => absurd (congrArg List.length hnil) (by decide)) with
  | ⟨table, h1, h2, h3⟩ =>
    ⟨table, h1, h2, h3 (by decide) 1 (6, some (Value.int 2)) rfl⟩

/-! ## Evaluations: capture positions, foreign tables, destruction, move -/

/-- C17, evaluated on `g(py::args, int)`: `parse_arguments` accepts the list
although the capture parameter is first; the capture parameter has index 0,
below `normal_argc = 1`, the normal parameter has index 1, not below it, and
the positional copy of the call `g(5)` writes slot 0, the capture slot, before
the packed tuple overwrites it. -/
theorem parse_arguments_accepts_capture_before_normal :
    args_first_parser_t.parse_arguments = some { argc := 2, args_pos := 0, kwargs_pos := -1 } ∧
    args_first_parser_t.Args.map Param.kind = [ParamKind.args, ParamKind.normal] ∧
    normal_argc_of args_first_parser_t.arguments_info = 1 ∧
    memcpy (List.replicate 3 none) ([Value.int 5].map some) 1 =
      [some (Value.int 5), none, none] ∧
    args_first_parser_t.load_positional (List.replicate 3 none)
        { args := [Value.int 5], kw := [] } =
      [some (Value.tuple []), none, none] :=
  ⟨rfl, rfl, rfl, rfl, rfl⟩

/-- C19, evaluated on chains built by `bind_function` and the call `f()`:
after `f(int, int)` without named-argument metadata and `f(str s = "z")` with
it, binding the second candidate reads the arguments table of the head, which
is null; after `f(int a, int b, int c)` and `f(str s = "z")`, both with
metadata, binding the second candidate copies the three defaults of the head
into its stack of `argc + 1 = 2` slots. -/
theorem binding_reads_and_writes_through_head :
    (match register_all "f"
        [(sample_instantiation [] [int_caster, int_caster], const_fn 1),
          (str_default_parser_t, const_fn 2)] (fun _ => none) with
      | .ok obj => _wrapper obj "f" { args := [], kw := [] }
      | .error e => .error e) = .error Fault.null_arguments ∧
    (function_record.ctor str_default_parser_t (const_fn 2) "f").wrapper.load_defaults
        (function_record.ctor (sample_instantiation [] [int_caster, int_caster]) (const_fn 1)
          "f") =
      .error Fault.null_arguments ∧
    (match register_all "f"
        [(three_named_parser_t, const_fn 1), (str_default_parser_t, const_fn 2)]
        (fun _ => none) with
      | .ok obj => _wrapper obj "f" { args := [], kw := [] }
      | .error e => .error e) = .error Fault.stack_out_of_bounds ∧
    (function_record.ctor str_default_parser_t (const_fn 2) "f").wrapper.load_defaults
        (function_record.ctor three_named_parser_t (const_fn 1) "f") =
      .error Fault.stack_out_of_bounds ∧
    (function_record.ctor three_named_parser_t (const_fn 1) "f").arguments.map
        (fun table => table.defaults.length) = some 3 ∧
    (function_record.ctor str_default_parser_t (const_fn 2) "f").wrapper.arguments_info.argc =
      1 :=
  ⟨rfl, rfl, rfl, rfl, rfl, rfl⟩

/-- C14, evaluated: destroying the head of a chain of one or two records
releases each closure, table and record once, but destroying the head of a
chain of three records reads a deleted record. The destructor of the second
record, run by `delete p`, still holds its `next` and deletes the third
record; the loop of the head then reads `next->next` of that deleted record. -/
theorem destroy_chain_of_three_reads_deleted_record :
    releases_of (destroy 50 true 0 { cells := chain_cells 0 [greet], released := [] }) =
      some [Release.closure 0 destructor_t.destroy_in_buffer, Release.arguments_table 0] ∧
    releases_of (destroy 50 true 0
        { cells := chain_cells 0 [greet, add_int], released := [] }) =
      some [Release.closure 0 destructor_t.destroy_in_buffer, Release.arguments_table 0,
        Release.closure 1 destructor_t.destroy_in_buffer, Release.record 1] ∧
    fault_of (destroy 50 true 0
        { cells := chain_cells 0 [greet, add_int, add_float], released := [] }) =
      some Fault.use_after_free ∧
    releases_of (destroy 50 true 1
        { cells := chain_cells 0 [greet, add_int, add_float], released := [] }) =
      some [Release.closure 1 destructor_t.destroy_in_buffer,
        Release.closure 2 destructor_t.destroy_in_buffer, Release.record 2] :=
  ⟨rfl, rfl, rfl, rfl⟩

end impl

end pybind11
